import Mathlib

/-!
Shallow embedding of the SOS game engine (board logic and heuristic AI).

Two board variants exist in the source: the "enhanced" board of `main.py`
(cells are `None`/`'S'`/`'O'`, with a move history and undo) and the base
board of `board.py` (cells are `''`/`'S'`/`'O'`, no history).  Both are
embedded below, together with the two AI variants (`EnhancedAI` of
`main.py` and `AIPlayer` of `ai.py`).

Modeling conventions:
- Python board cells are read in the source only at positions that were
  bounds-checked (`_is_valid_pos` guards, or positions validated by
  `is_valid_move`); cell reads are therefore modeled with a bounds-guarded
  lookup that returns the empty value out of bounds.
- `random.choice(xs)` is modeled by an explicit index argument taken
  modulo `xs.length`; `random.random()` threshold tests and coin flips are
  modeled by explicit `Bool`/`Letter` arguments, so theorems quantify over
  all random outcomes.
-/

set_option maxRecDepth 4000

namespace SOSGame

/-- A letter placed on the board ('S' or 'O'). -/
inductive Letter
| S
| O
deriving DecidableEq

abbrev Pos := Int × Int

/-- A recorded SOS sequence: the list of its three cell positions,
in the order the detection code wrote them. -/
abbrev Seq := List Pos

/-- Bounds check used by both board variants (`_is_valid_pos`). -/
abbrev inBounds (n : Nat) (r c : Int) : Prop :=
  0 ≤ r ∧ r < (n : Int) ∧ 0 ≤ c ∧ c < (n : Int)

/-- The guarded append used by every detection branch in both variants:
`if sequence not in self.sos_sequences: append; count += 1`. -/
def addSeq (acc : List Seq × Nat) (s : Seq) : List Seq × Nat :=
  if s ∈ acc.1 then acc else (acc.1 ++ [s], acc.2 + 1)

/-- A detection branch: append the candidate sequence when the pattern
condition holds. -/
def condAdd (cond : Prop) [Decidable cond] (acc : List Seq × Nat) (s : Seq) :
    List Seq × Nat :=
  if cond then addSeq acc s else acc

namespace Main

/-! The enhanced board of `main.py` (`SOSBoard` with undo/redo). -/

abbrev Grid := List (List (Option Letter))

/-- History entry (`Move` dataclass of `main.py`). -/
structure Move where
  row : Int
  col : Int
  letter : Letter
  player : String
  sos_formed : Nat
deriving DecidableEq

/-- Model of `SOSBoard` of `main.py`: grid cells are `None` (empty) or a letter. -/
structure Board where
  size : Nat
  board : Grid
  sos_sequences : List Seq
  move_history : List Move
deriving DecidableEq

/-- Model of `SOSBoard.__init__`. -/
def mkBoard (n : Nat) : Board :=
  ⟨n, List.replicate n (List.replicate n none), [], []⟩

/-- Bounds-guarded cell read; out of bounds reads give `none`. -/
def cellAt (n : Nat) (g : Grid) (r c : Int) : Option Letter :=
  if inBounds n r c then ((g[r.toNat]?.getD [])[c.toNat]?).getD none else none

/-- Write a cell (all call sites in the source use validated positions). -/
def setCell (g : Grid) (r c : Int) (v : Option Letter) : Grid :=
  g.set r.toNat ((g[r.toNat]?.getD []).set c.toNat v)

/-- The eight compass directions scanned by `_check_sos_sequences`. -/
def dirs8 : List (Int × Int) :=
  [(-1,-1), (-1,0), (-1,1), (0,-1), (0,1), (1,-1), (1,0), (1,1)]

/-- The sequence recorded when (row,col) is the first 'S' along (dr,dc). -/
def sFirst (row col dr dc : Int) : Seq :=
  [(row, col), (row + dr, col + dc), (row + 2*dr, col + 2*dc)]

/-- The sequence recorded when (row,col) is the middle 'O' along (dr,dc). -/
def sMid (row col dr dc : Int) : Seq :=
  [(row - dr, col - dc), (row, col), (row + dr, col + dc)]

/-- The sequence recorded when (row,col) is the last 'S' along (dr,dc). -/
def sLast (row col dr dc : Int) : Seq :=
  [(row - 2*dr, col - 2*dc), (row - dr, col - dc), (row, col)]

/-- Condition for (row,col) to start an S-O-S along (dr,dc). -/
abbrev pFirst (n : Nat) (g : Grid) (row col dr dc : Int) : Prop :=
  cellAt n g row col = some .S ∧ cellAt n g (row + dr) (col + dc) = some .O ∧
    cellAt n g (row + 2*dr) (col + 2*dc) = some .S

/-- Condition for (row,col) to be the middle 'O' of an S-O-S along (dr,dc). -/
abbrev pMid (n : Nat) (g : Grid) (row col dr dc : Int) : Prop :=
  cellAt n g row col = some .O ∧ cellAt n g (row - dr) (col - dc) = some .S ∧
    cellAt n g (row + dr) (col + dc) = some .S

/-- Condition for (row,col) to end an S-O-S along (dr,dc). -/
abbrev pLast (n : Nat) (g : Grid) (row col dr dc : Int) : Prop :=
  cellAt n g row col = some .S ∧ cellAt n g (row - dr) (col - dc) = some .O ∧
    cellAt n g (row - 2*dr) (col - 2*dc) = some .S

/-- One direction of `_check_sos_sequences`: the three role checks in
source order (first 'S', middle 'O', last 'S'). -/
def checkDir (n : Nat) (g : Grid) (row col : Int) (acc : List Seq × Nat)
    (d : Int × Int) : List Seq × Nat :=
  let a1 := condAdd (pFirst n g row col d.1 d.2) acc (sFirst row col d.1 d.2)
  let a2 := condAdd (pMid n g row col d.1 d.2) a1 (sMid row col d.1 d.2)
  condAdd (pLast n g row col d.1 d.2) a2 (sLast row col d.1 d.2)

/-- Model of `_check_sos_sequences`: returns the updated `sos_sequences` list and
the number of newly appended sequences (`len(new_sequences)`). -/
def checkSos (n : Nat) (g : Grid) (row col : Int) (seqs : List Seq) : List Seq × Nat :=
  dirs8.foldl (checkDir n g row col) (seqs, 0)

/-- Model of `SOSBoard.is_valid_move`. -/
abbrev is_valid_move (b : Board) (r c : Int) : Prop :=
  inBounds b.size r c ∧ cellAt b.size b.board r c = none

/-- Model of `SOSBoard.make_move` of `main.py`: place the letter, run detection and
append a history record; returns the updated board and points scored. -/
def make_move (b : Board) (r c : Int) (l : Letter) (player : String) : Board × Nat :=
  if is_valid_move b r c then
    let g := setCell b.board r c (some l)
    let res := checkSos b.size g r c b.sos_sequences
    (⟨b.size, g, res.1, b.move_history ++ [⟨r, c, l, player, res.2⟩]⟩, res.2)
  else (b, 0)

/-- One iteration of the replay loop in `undo_last_move`: re-set the cell,
re-run detection at the move's position, re-append the move. -/
def replayStep (n : Nat) (st : Grid × List Seq × List Move) (m : Move) :
    Grid × List Seq × List Move :=
  let g := setCell st.1 m.row m.col (some m.letter)
  let s := (checkSos n g m.row m.col st.2.1).1
  (g, s, st.2.2 ++ [m])

/-- Model of `SOSBoard.undo_last_move`: pop the last move, clear its cell, reset
`sos_sequences` and replay the remaining moves in order. -/
def undo_last_move (b : Board) : Board × Option Move :=
  match b.move_history.getLast? with
  | none => (b, none)
  | some last =>
    let hist := b.move_history.dropLast
    let g0 := setCell b.board last.row last.col none
    let st := hist.foldl (replayStep b.size) (g0, [], [])
    (⟨b.size, st.1, st.2.1, st.2.2⟩, some last)

/-- Model of `SOSBoard.get_cell` of `main.py`: `None` out of bounds, the raw cell
value (also `None` when empty) in bounds. -/
def get_cell (b : Board) (r c : Int) : Option Letter :=
  if inBounds b.size r c then ((b.board[r.toNat]?.getD [])[c.toNat]?).getD none else none

/-- Model of `SOSBoard.is_full` of `main.py`. -/
def is_full (b : Board) : Bool :=
  b.board.all (fun row => row.all (fun cell => cell.isSome))

/-- Model of `SOSBoard.get_empty_cells` of `main.py` (row-major scan order). -/
def get_empty_cells (b : Board) : List Pos :=
  (List.range b.size).flatMap (fun i =>
    (List.range b.size).filterMap (fun j =>
      if cellAt b.size b.board (Int.ofNat i) (Int.ofNat j) = none
      then some (Int.ofNat i, Int.ofNat j) else none))

/-- Model of `SOSBoard.copy` of `main.py`: an independent value copy. -/
def copy (b : Board) : Board :=
  ⟨b.size, b.board, b.sos_sequences, b.move_history⟩

/-- Board states reachable through any sequence of `make_move` and
`undo_last_move` calls from a fresh board. -/
inductive Reachable : Board → Prop
| init (n : Nat) : Reachable (mkBoard n)
| move {b : Board} (r c : Int) (l : Letter) (p : String) :
    Reachable b → Reachable (make_move b r c l p).1
| undo {b : Board} : Reachable b → Reachable (undo_last_move b).1

/-- Predicate stating that `s` records, in discovery orientation, a complete S-O-S line
of the grid: three collinear adjacent cells reading S, O, S along one of
the eight directions. -/
def OrientedSOS (n : Nat) (g : Grid) (s : Seq) : Prop :=
  ∃ pr pc dr dc : Int, (dr, dc) ∈ dirs8 ∧
    s = [(pr, pc), (pr + dr, pc + dc), (pr + 2*dr, pc + 2*dc)] ∧
    cellAt n g pr pc = some .S ∧ cellAt n g (pr + dr) (pc + dc) = some .O ∧
    cellAt n g (pr + 2*dr) (pc + 2*dc) = some .S

end Main

namespace Base

/-! The base board of `board.py` (`SOSBoard`, console variant). -/

/-- A cell of the base board: the empty string, 'S' or 'O'. -/
inductive BCell
| empty
| S
| O
deriving DecidableEq

/-- The cell written when a letter is placed. -/
def letterCell : Letter → BCell
| .S => .S
| .O => .O

abbrev BGrid := List (List BCell)

/-- Model of `SOSBoard` of `board.py`: no history, cells are strings. -/
structure Board where
  size : Nat
  board : BGrid
  sos_sequences : List Seq
deriving DecidableEq

/-- Model of `SOSBoard.__init__`. -/
def mkBoard (n : Nat) : Board :=
  ⟨n, List.replicate n (List.replicate n .empty), []⟩

/-- Bounds-guarded cell read; out of bounds reads give the empty cell. -/
def cellAt (n : Nat) (g : BGrid) (r c : Int) : BCell :=
  if inBounds n r c then ((g[r.toNat]?.getD [])[c.toNat]?).getD .empty else .empty

/-- Write a cell (all call sites in the source use validated positions). -/
def setCell (g : BGrid) (r c : Int) (v : BCell) : BGrid :=
  g.set r.toNat ((g[r.toNat]?.getD []).set c.toNat v)

/-- The four undirected axes scanned by `check_sos_formations`. -/
def dirs4 : List (Int × Int) := [(0,1), (1,0), (1,1), (1,-1)]

/-- Model of `SOSBoard._check_sos_middle`. -/
def check_sos_middle (n : Nat) (g : BGrid) (row col dr dc : Int)
    (acc : List Seq × Nat) : List Seq × Nat :=
  condAdd (inBounds n (row - dr) (col - dc) ∧ inBounds n (row + dr) (col + dc) ∧
      cellAt n g (row - dr) (col - dc) = .S ∧ cellAt n g (row + dr) (col + dc) = .S)
    acc [(row - dr, col - dc), (row, col), (row + dr, col + dc)]

/-- Model of `SOSBoard._check_sos_start`. -/
def check_sos_start (n : Nat) (g : BGrid) (row col dr dc : Int)
    (acc : List Seq × Nat) : List Seq × Nat :=
  condAdd (inBounds n (row + dr) (col + dc) ∧ inBounds n (row + 2*dr) (col + 2*dc) ∧
      cellAt n g (row + dr) (col + dc) = .O ∧ cellAt n g (row + 2*dr) (col + 2*dc) = .S)
    acc [(row, col), (row + dr, col + dc), (row + 2*dr, col + 2*dc)]

/-- Model of `SOSBoard._check_sos_end`. -/
def check_sos_end (n : Nat) (g : BGrid) (row col dr dc : Int)
    (acc : List Seq × Nat) : List Seq × Nat :=
  condAdd (inBounds n (row - dr) (col - dc) ∧ inBounds n (row - 2*dr) (col - 2*dc) ∧
      cellAt n g (row - dr) (col - dc) = .O ∧ cellAt n g (row - 2*dr) (col - 2*dc) = .S)
    acc [(row - 2*dr, col - 2*dc), (row - dr, col - dc), (row, col)]

/-- One direction of `check_sos_formations` (middle, start, end checks in
source order, gated by the letter at the placed cell). -/
def checkDirB (n : Nat) (g : BGrid) (row col : Int) (acc : List Seq × Nat)
    (d : Int × Int) : List Seq × Nat :=
  let letter := cellAt n g row col
  let a1 := if letter = .O then check_sos_middle n g row col d.1 d.2 acc else acc
  let a2 := if letter = .S then check_sos_start n g row col d.1 d.2 a1 else a1
  if letter = .S then check_sos_end n g row col d.1 d.2 a2 else a2

/-- Model of `SOSBoard.check_sos_formations`. -/
def check_sos_formations (n : Nat) (g : BGrid) (row col : Int)
    (seqs : List Seq) : List Seq × Nat :=
  dirs4.foldl (checkDirB n g row col) (seqs, 0)

/-- Model of `SOSBoard.is_valid_move` of `board.py`. -/
abbrev is_valid_move (b : Board) (r c : Int) : Prop :=
  inBounds b.size r c ∧ cellAt b.size b.board r c = .empty

/-- Model of `SOSBoard.make_move` of `board.py`: returns updated board and points. -/
def make_move (b : Board) (r c : Int) (l : Letter) : Board × Nat :=
  if is_valid_move b r c then
    let g := setCell b.board r c (letterCell l)
    let res := check_sos_formations b.size g r c b.sos_sequences
    (⟨b.size, g, res.1⟩, res.2)
  else (b, 0)

/-- Model of `SOSBoard.get_cell` of `board.py`: `None` out of bounds, otherwise the
cell value (which can be the distinct empty string). -/
def get_cell (b : Board) (r c : Int) : Option BCell :=
  if inBounds b.size r c then
    some (((b.board[r.toNat]?.getD [])[c.toNat]?).getD .empty)
  else none

/-- Model of `SOSBoard.is_full` of `board.py`. -/
def is_full (b : Board) : Bool :=
  b.board.all (fun row => row.all (fun cell => cell != BCell.empty))

/-- Model of `SOSBoard.get_empty_cells` of `board.py` (row-major scan order). -/
def get_empty_cells (b : Board) : List Pos :=
  (List.range b.size).flatMap (fun i =>
    (List.range b.size).filterMap (fun j =>
      if cellAt b.size b.board (Int.ofNat i) (Int.ofNat j) = .empty
      then some (Int.ofNat i, Int.ofNat j) else none))

/-- Model of `SOSBoard.copy` of `board.py`: an independent value copy. -/
def copy (b : Board) : Board := ⟨b.size, b.board, b.sos_sequences⟩

end Base

namespace AIP

/-! `AIPlayer` of `ai.py` (the free-letter, instant AI) over the base board. -/

/-- The difficulty string of `AIPlayer`. -/
inductive Diff3
| easy
| medium
| hard
deriving DecidableEq

/-- Explicit outcomes for the random draws `AIPlayer.get_move` can make. -/
structure ARand where
  blockLetter : Letter
  tie : Letter
  fallIdx : Nat
  fallLetter : Letter

/-- Model of `AIPlayer._valid_and_equals`. -/
abbrev valid_and_equals (b : Base.Board) (r c : Int) (v : Base.BCell) : Prop :=
  inBounds b.size r c ∧ Base.get_cell b r c = some v

/-- The direction list of `ai.py`. -/
def aiDirs : List (Int × Int) := [(0,1), (1,0), (1,1), (1,-1)]

/-- Model of `AIPlayer._check_sos_pattern`. -/
def check_sos_pattern (b : Base.Board) (row col : Int) (l : Letter) (dr dc : Int) : Bool :=
  match l with
  | .S =>
    (decide (valid_and_equals b (row + dr) (col + dc) .O) &&
       decide (valid_and_equals b (row + 2*dr) (col + 2*dc) .S)) ||
    (decide (valid_and_equals b (row - dr) (col - dc) .O) &&
       decide (valid_and_equals b (row - 2*dr) (col - 2*dc) .S))
  | .O =>
    decide (valid_and_equals b (row - dr) (col - dc) .S) &&
      decide (valid_and_equals b (row + dr) (col + dc) .S)

/-- Model of `AIPlayer._can_win_here`. -/
def can_win_here (b : Base.Board) (row col : Int) (l : Letter) : Bool :=
  aiDirs.any (fun d => check_sos_pattern b row col l d.1 d.2)

/-- Model of `AIPlayer._should_block_here`. -/
def should_block_here (b : Base.Board) (row col : Int) : Bool :=
  can_win_here b row col .S || can_win_here b row col .O

/-- Step 1 of `get_move`: the immediate-win loop with `if i >= 3: break`. -/
def winScan (b : Base.Board) : List Pos → Nat → Option (Pos × Letter)
| [], _ => none
| p :: rest, i =>
  if 3 ≤ i then none
  else if can_win_here b p.1 p.2 .S then some (p, .S)
  else if can_win_here b p.1 p.2 .O then some (p, .O)
  else winScan b rest (i + 1)

/-- Step 2 of `get_move`: the block loop with `if i >= 2: break`. -/
def blockScan (b : Base.Board) : List Pos → Nat → Option Pos
| [], _ => none
| p :: rest, i =>
  if 2 ≤ i then none
  else if should_block_here b p.1 p.2 then some p
  else blockScan b rest (i + 1)

/-- The four orthogonal neighbour offsets of `_quick_letter_choice`. -/
def orthoDirs : List (Int × Int) := [(-1,0), (1,0), (0,-1), (0,1)]

/-- Model of `AIPlayer._quick_letter_choice` (the equal-count coin flip is the
explicit `tie` argument). -/
def quick_letter_choice (b : Base.Board) (r c : Int) (tie : Letter) : Letter :=
  let s := (orthoDirs.filter (fun d =>
    decide (valid_and_equals b (r + d.1) (c + d.2) .S))).length
  let o := (orthoDirs.filter (fun d =>
    decide (valid_and_equals b (r + d.1) (c + d.2) .O))).length
  if s > o then .O
  else if o > s then .S
  else tie

/-- The corner list of `_get_quick_strategic_move`. -/
def corners (b : Base.Board) : List Pos :=
  [(0, 0), (0, (b.size : Int) - 1), ((b.size : Int) - 1, 0),
   ((b.size : Int) - 1, (b.size : Int) - 1)]

/-- Model of `board.size // 2`, the center coordinate used by the strategic move. -/
def centerI (b : Base.Board) : Int := (b.size / 2 : Nat)

/-- The cell chosen by the priority chain of `_get_quick_strategic_move`
(center, then near-center, then corners, then edges, then the first
remaining empty cell `p0`). -/
def stratPick (b : Base.Board) (ec : List Pos) (p0 : Pos) : Pos :=
  if (centerI b, centerI b) ∈ ec then (centerI b, centerI b)
  else
    match ec.find? (fun p =>
        decide ((p.1 - centerI b).natAbs ≤ 1 ∧ (p.2 - centerI b).natAbs ≤ 1)) with
    | some p => p
    | none =>
      match (corners b).find? (fun p => decide (p ∈ ec)) with
      | some p => p
      | none =>
        match ec.find? (fun p => decide (p.1 = 0 ∨ p.1 = (b.size : Int) - 1 ∨
            p.2 = 0 ∨ p.2 = (b.size : Int) - 1)) with
        | some p => p
        | none => p0

/-- Model of `AIPlayer._get_quick_strategic_move`. -/
def get_quick_strategic_move (b : Base.Board) (ec : List Pos) (tie : Letter) :
    Option (Pos × Letter) :=
  match ec with
  | [] => none
  | p0 :: _ =>
    some (stratPick b ec p0,
      quick_letter_choice b (stratPick b ec p0).1 (stratPick b ec p0).2 tie)

/-- Model of `AIPlayer.get_move`: returns `(None, None, None)` on a full board,
otherwise a `(row, col, letter)` triple. -/
def get_move (diff : Diff3) (b : Base.Board) (rnd : ARand) :
    Option Int × Option Int × Option Letter :=
  let ec := Base.get_empty_cells b
  if ec = [] then (none, none, none)
  else
    match winScan b ec 0 with
    | some (p, l) => (some p.1, some p.2, some l)
    | none =>
      match (if diff = Diff3.hard then blockScan b ec 0 else none) with
      | some p => (some p.1, some p.2, some rnd.blockLetter)
      | none =>
        match get_quick_strategic_move b ec rnd.tie with
        | some (p, l) => (some p.1, some p.2, some l)
        | none =>
          let p := ec.getD (rnd.fallIdx % ec.length) (0, 0)
          (some p.1, some p.2, some rnd.fallLetter)

end AIP

namespace EAI

/-! `EnhancedAI` of `main.py` (the fixed-letter AI, always plays 'O') over
the enhanced board. -/

/-- The `Difficulty` enum of `main.py`. -/
inductive EDiff
| easy
| medium
| hard
deriving DecidableEq

/-- Model of `EnhancedAI._get_random_move`. -/
def get_random_move (b : Main.Board) (idx : Nat) :
    Option Int × Option Int × Option Letter :=
  let ec := Main.get_empty_cells b
  match ec with
  | [] => (none, none, none)
  | _ :: _ =>
    let p := ec.getD (idx % ec.length) (0, 0)
    (some p.1, some p.2, some Letter.O)

/-- Model of `EnhancedAI._get_easy_move` (always a random cell, letter 'O'). -/
def get_easy_move (b : Main.Board) (idx : Nat) :
    Option Int × Option Int × Option Letter :=
  let ec := Main.get_empty_cells b
  match ec with
  | [] => (none, none, none)
  | _ :: _ =>
    let p := ec.getD (idx % ec.length) (0, 0)
    (some p.1, some p.2, some Letter.O)

/-- The loop body of `_find_sos_move`: keep the strictly best simulated
'O' placement seen so far. -/
def sosFold (b : Main.Board) (acc : Option Pos × Nat) (p : Pos) : Option Pos × Nat :=
  let cnt := (Main.make_move (Main.copy b) p.1 p.2 .O "").2
  if cnt > acc.2 then (some p, cnt) else acc

/-- Model of `EnhancedAI._find_sos_move`: best 'O' placement by simulated score. -/
def find_sos_move (b : Main.Board) : Option Pos :=
  let ec := Main.get_empty_cells b
  let res := ec.foldl (sosFold b) (none, 0)
  if res.2 > 0 then res.1 else none

/-- Model of `EnhancedAI._find_blocking_move`: first cell where 'S' would score. -/
def find_blocking_move (b : Main.Board) : Option Pos :=
  (Main.get_empty_cells b).find? (fun p =>
    decide ((Main.make_move (Main.copy b) p.1 p.2 .S "").2 > 0))

/-- Model of `EnhancedAI._count_potential_sos`. -/
def count_potential_sos (n : Nat) (g : Main.Grid) (row col : Int) : Nat :=
  (Main.dirs8.filter (fun d =>
    decide (Main.cellAt n g row col = some .O) &&
    decide (inBounds n (row - d.1) (col - d.2)) &&
    decide (inBounds n (row + d.1) (col + d.2)) &&
    ((decide (Main.cellAt n g (row - d.1) (col - d.2) = some .S) &&
        decide (Main.cellAt n g (row + d.1) (col + d.2) = none)) ||
     (decide (Main.cellAt n g (row - d.1) (col - d.2) = none) &&
        decide (Main.cellAt n g (row + d.1) (col + d.2) = some .S))))).length

/-- The score `_find_strategic_move` assigns to an empty cell. -/
def stratScore (b : Main.Board) (p : Pos) : Int :=
  let center : Int := (b.size / 2 : Nat)
  let dist : Int := ((p.1 - center).natAbs : Int) + ((p.2 - center).natAbs : Int)
  let g := Main.setCell b.board p.1 p.2 (some .O)
  ((b.size : Int) - dist) * 2 + (count_potential_sos b.size g p.1 p.2 : Int) * 5

/-- Strict lexicographic order on `(score, row, col)` triples, matching
Python tuple comparison in `scored_moves.sort(reverse=True)`. -/
abbrev lexLT (a x : Int × Int × Int) : Prop :=
  a.1 < x.1 ∨ (a.1 = x.1 ∧ (a.2.1 < x.2.1 ∨ (a.2.1 = x.2.1 ∧ a.2.2 < x.2.2)))

/-- The loop body of `_find_strategic_move`, phrased as a running
lexicographic maximum of `(score, row, col)` triples. -/
def stratFold (b : Main.Board) (acc : Int × Int × Int) (p : Pos) : Int × Int × Int :=
  if lexLT acc (stratScore b p, p.1, p.2) then (stratScore b p, p.1, p.2) else acc

/-- Model of `EnhancedAI._find_strategic_move`: the head of the reverse-sorted
`(score, row, col)` list, i.e. its lexicographic maximum. -/
def find_strategic_move (b : Main.Board) : Option Pos :=
  match Main.get_empty_cells b with
  | [] => none
  | p0 :: rest =>
    let best := rest.foldl (stratFold b) (stratScore b p0, p0.1, p0.2)
    some (best.2.1, best.2.2)

/-- The opponent-reply bound of `_find_best_move_with_lookahead`: best 'S'
reply score over the first 5 empty cells of the simulated board. -/
def oppBest (b2 : Main.Board) : Nat :=
  ((Main.get_empty_cells b2).take 5).foldl (fun m q =>
    max m (Main.make_move (Main.copy b2) q.1 q.2 .S "Human").2) 0

/-- The lookahead score of a candidate cell:
`immediate_score * 10 - opponent_best * 5`. -/
def lookScore (b : Main.Board) (p : Pos) : Int :=
  let res := Main.make_move (Main.copy b) p.1 p.2 .O "AI"
  (res.2 : Int) * 10 - (oppBest res.1 : Int) * 5

/-- The loop body of `_find_best_move_with_lookahead` (`best_score`
starts at minus infinity, modeled by the `none` accumulator). -/
def lookFold (b : Main.Board) (acc : Option (Pos × Int)) (p : Pos) : Option (Pos × Int) :=
  let total := lookScore b p
  match acc with
  | none => some (p, total)
  | some pr => if total > pr.2 then some (p, total) else acc

/-- Model of `EnhancedAI._find_best_move_with_lookahead`: scans all empty cells,
keeping the first strict maximum of `lookScore`. -/
def find_best_move_with_lookahead (b : Main.Board) : Option Pos :=
  let res := (Main.get_empty_cells b).foldl (lookFold b) none
  res.map (fun pr => pr.1)

/-- The difficulty dispatch inside `EnhancedAI.get_move` (`gate` is the
outcome of the `random.random() < 0.7 / 0.8` test). -/
def dispatch (diff : EDiff) (b : Main.Board) (gate : Bool) (idx : Nat) :
    Option Int × Option Int × Option Letter :=
  match diff with
  | .easy => get_easy_move b idx
  | .medium =>
    if gate then get_random_move b idx
    else
      match find_sos_move b with
      | some p => (some p.1, some p.2, some Letter.O)
      | none =>
        match find_blocking_move b with
        | some p => (some p.1, some p.2, some Letter.O)
        | none =>
          match find_strategic_move b with
          | some p => (some p.1, some p.2, some Letter.O)
          | none => get_random_move b idx
  | .hard =>
    if gate then get_random_move b idx
    else
      match find_sos_move b with
      | some p => (some p.1, some p.2, some Letter.O)
      | none =>
        match find_blocking_move b with
        | some p => (some p.1, some p.2, some Letter.O)
        | none =>
          match find_best_move_with_lookahead b with
          | some p => (some p.1, some p.2, some Letter.O)
          | none =>
            match find_strategic_move b with
            | some p => (some p.1, some p.2, some Letter.O)
            | none => get_random_move b idx

/-- Model of `EnhancedAI.get_move`: dispatch by difficulty, fall back to a random
cell if no move was found, and always return `self.letter` ('O') as the
letter component. -/
def get_move (diff : EDiff) (b : Main.Board) (gate : Bool) (idx : Nat) :
    Option Int × Option Int × Option Letter :=
  let t := dispatch diff b gate idx
  let rc :=
    if t.1 = none ∨ t.2.1 = none then
      let u := get_random_move b idx
      (u.1, u.2.1)
    else (t.1, t.2.1)
  (rc.1, rc.2, some Letter.O)

end EAI

/-! ### Basic lemmas about the guarded-append accumulator -/

theorem addSeq_mem (acc : List Seq × Nat) (s t : Seq) :
    t ∈ (addSeq acc s).1 ↔ t ∈ acc.1 ∨ t = s := by
  unfold addSeq
  split
  · rename_i h
    constructor
    · exact Or.inl
    · rintro (h' | rfl)
      · exact h'
      · exact h
  · simp [List.mem_append]

theorem condAdd_mem (c : Prop) [Decidable c] (acc : List Seq × Nat) (s t : Seq) :
    t ∈ (condAdd c acc s).1 ↔ t ∈ acc.1 ∨ (c ∧ t = s) := by
  unfold condAdd
  split
  · rw [addSeq_mem]; rename_i hc; tauto
  · rename_i hc; tauto

theorem condAdd_len (c : Prop) [Decidable c] (acc : List Seq × Nat) (s : Seq)
    (L : Nat) (h : acc.1.length = L + acc.2) :
    (condAdd c acc s).1.length = L + (condAdd c acc s).2 := by
  unfold condAdd addSeq
  split
  · split
    · exact h
    · simp only [List.length_append, List.length_singleton, h]
      omega
  · exact h

theorem condAdd_nodup (c : Prop) [Decidable c] (acc : List Seq × Nat) (s : Seq)
    (h : acc.1.Nodup) : (condAdd c acc s).1.Nodup := by
  unfold condAdd addSeq
  split
  · split
    · exact h
    · rename_i hm
      simp [List.nodup_append, h, hm]
  · exact h

namespace Main

/-- The three candidate sequences a single direction of
`_check_sos_sequences` can append for `t`. -/
def producedBy (n : Nat) (g : Grid) (row col : Int) (d : Int × Int) (t : Seq) : Prop :=
  (pFirst n g row col d.1 d.2 ∧ t = sFirst row col d.1 d.2) ∨
  (pMid n g row col d.1 d.2 ∧ t = sMid row col d.1 d.2) ∨
  (pLast n g row col d.1 d.2 ∧ t = sLast row col d.1 d.2)

theorem checkDir_mem (n : Nat) (g : Grid) (row col : Int) (acc : List Seq × Nat)
    (d : Int × Int) (t : Seq) :
    t ∈ (checkDir n g row col acc d).1 ↔ t ∈ acc.1 ∨ producedBy n g row col d t := by
  unfold checkDir producedBy
  simp only [condAdd_mem]
  tauto

theorem checkDir_len (n : Nat) (g : Grid) (row col : Int) (acc : List Seq × Nat)
    (d : Int × Int) (L : Nat) (h : acc.1.length = L + acc.2) :
    (checkDir n g row col acc d).1.length = L + (checkDir n g row col acc d).2 := by
  unfold checkDir
  exact condAdd_len _ _ _ _ (condAdd_len _ _ _ _ (condAdd_len _ _ _ _ h))

theorem checkDir_nodup (n : Nat) (g : Grid) (row col : Int) (acc : List Seq × Nat)
    (d : Int × Int) (h : acc.1.Nodup) : (checkDir n g row col acc d).1.Nodup := by
  unfold checkDir
  exact condAdd_nodup _ _ _ (condAdd_nodup _ _ _ (condAdd_nodup _ _ _ h))

theorem foldDirs_mem (n : Nat) (g : Grid) (row col : Int) (L : List (Int × Int))
    (acc : List Seq × Nat) (t : Seq) :
    t ∈ (L.foldl (checkDir n g row col) acc).1 ↔
      t ∈ acc.1 ∨ ∃ d ∈ L, producedBy n g row col d t := by
  induction L generalizing acc with
  | nil => simp
  | cons d L ih =>
    rw [List.foldl_cons, ih, checkDir_mem]
    simp only [List.mem_cons]
    constructor
    · rintro ((h | h) | ⟨d', hd', h⟩)
      · exact Or.inl h
      · exact Or.inr ⟨d, Or.inl rfl, h⟩
      · exact Or.inr ⟨d', Or.inr hd', h⟩
    · rintro (h | ⟨d', (rfl | hd'), h⟩)
      · exact Or.inl (Or.inl h)
      · exact Or.inl (Or.inr h)
      · exact Or.inr ⟨d', hd', h⟩

theorem foldDirs_len (n : Nat) (g : Grid) (row col : Int) (L : List (Int × Int))
    (acc : List Seq × Nat) (Len : Nat) (h : acc.1.length = Len + acc.2) :
    (L.foldl (checkDir n g row col) acc).1.length =
      Len + (L.foldl (checkDir n g row col) acc).2 := by
  induction L generalizing acc with
  | nil => exact h
  | cons d L ih => exact ih _ (checkDir_len _ _ _ _ _ _ _ h)

theorem foldDirs_nodup (n : Nat) (g : Grid) (row col : Int) (L : List (Int × Int))
    (acc : List Seq × Nat) (h : acc.1.Nodup) :
    (L.foldl (checkDir n g row col) acc).1.Nodup := by
  induction L generalizing acc with
  | nil => exact h
  | cons d L ih => exact ih _ (checkDir_nodup _ _ _ _ _ _ h)

theorem checkSos_mem (n : Nat) (g : Grid) (row col : Int) (seqs : List Seq) (t : Seq) :
    t ∈ (checkSos n g row col seqs).1 ↔
      t ∈ seqs ∨ ∃ d ∈ dirs8, producedBy n g row col d t :=
  foldDirs_mem n g row col dirs8 (seqs, 0) t

theorem checkSos_len (n : Nat) (g : Grid) (row col : Int) (seqs : List Seq) :
    (checkSos n g row col seqs).1.length = seqs.length + (checkSos n g row col seqs).2 :=
  foldDirs_len n g row col dirs8 (seqs, 0) seqs.length rfl

theorem checkSos_nodup (n : Nat) (g : Grid) (row col : Int) (seqs : List Seq)
    (h : seqs.Nodup) : (checkSos n g row col seqs).1.Nodup :=
  foldDirs_nodup n g row col dirs8 (seqs, 0) h

/-- A single direction can append `t` exactly when `t` records a complete
S-O-S line through the placed cell (in the orientation of discovery). -/
theorem producedBy_iff (n : Nat) (g : Grid) (row col : Int) (t : Seq) :
    (∃ d ∈ dirs8, producedBy n g row col d t) ↔
      OrientedSOS n g t ∧ (row, col) ∈ t := by
  constructor
  · rintro ⟨⟨dr, dc⟩, hd, hp⟩
    rcases hp with ⟨⟨h1, h2, h3⟩, rfl⟩ | ⟨⟨h1, h2, h3⟩, rfl⟩ | ⟨⟨h1, h2, h3⟩, rfl⟩
    · exact ⟨⟨row, col, dr, dc, hd, rfl, h1, h2, h3⟩, by simp [sFirst]⟩
    · refine ⟨⟨row - dr, col - dc, dr, dc, hd, ?_, h2, ?_, ?_⟩, by simp [sMid]⟩
      · simp only [sMid, List.cons.injEq, Prod.mk.injEq, and_true, true_and]
        omega
      · have e1 : row - dr + dr = row := by omega
        have e2 : col - dc + dc = col := by omega
        rw [e1, e2]; exact h1
      · have e1 : row - dr + 2*dr = row + dr := by omega
        have e2 : col - dc + 2*dc = col + dc := by omega
        rw [e1, e2]; exact h3
    · refine ⟨⟨row - 2*dr, col - 2*dc, dr, dc, hd, ?_, h3, ?_, ?_⟩, by simp [sLast]⟩
      · simp only [sLast, List.cons.injEq, Prod.mk.injEq, and_true, true_and]
        omega
      · have e1 : row - 2*dr + dr = row - dr := by omega
        have e2 : col - 2*dc + dc = col - dc := by omega
        rw [e1, e2]; exact h2
      · have e1 : row - 2*dr + 2*dr = row := by omega
        have e2 : col - 2*dc + 2*dc = col := by omega
        rw [e1, e2]; exact h1
  · rintro ⟨⟨pr, pc, dr, dc, hd, rfl, c1, c2, c3⟩, hm⟩
    simp only [List.mem_cons, List.not_mem_nil, or_false] at hm
    rcases hm with hm | hm | hm
    · rw [Prod.mk.injEq] at hm
      obtain ⟨hr, hc⟩ := hm
      subst hr; subst hc
      exact ⟨(dr, dc), hd, Or.inl ⟨⟨c1, c2, c3⟩, rfl⟩⟩
    · rw [Prod.mk.injEq] at hm
      obtain ⟨hr, hc⟩ := hm
      subst hr; subst hc
      refine ⟨(dr, dc), hd, Or.inr (Or.inl ⟨⟨c2, ?_, ?_⟩, ?_⟩)⟩
      · have e1 : pr + dr - dr = pr := by omega
        have e2 : pc + dc - dc = pc := by omega
        rw [e1, e2]; exact c1
      · have e1 : pr + dr + dr = pr + 2*dr := by omega
        have e2 : pc + dc + dc = pc + 2*dc := by omega
        rw [e1, e2]; exact c3
      · simp only [sMid, List.cons.injEq, Prod.mk.injEq, and_true, true_and]
        omega
    · rw [Prod.mk.injEq] at hm
      obtain ⟨hr, hc⟩ := hm
      subst hr; subst hc
      refine ⟨(dr, dc), hd, Or.inr (Or.inr ⟨⟨c3, ?_, ?_⟩, ?_⟩)⟩
      · have e1 : pr + 2*dr - dr = pr + dr := by omega
        have e2 : pc + 2*dc - dc = pc + dc := by omega
        rw [e1, e2]; exact c2
      · have e1 : pr + 2*dr - 2*dr = pr := by omega
        have e2 : pc + 2*dc - 2*dc = pc := by omega
        rw [e1, e2]; exact c1
      · simp only [sLast, List.cons.injEq, Prod.mk.injEq, and_true, true_and]
        omega

/-- Membership in the result of `_check_sos_sequences`: the old entries
plus the oriented S-O-S lines through the placed cell. -/
theorem checkSos_mem_through (n : Nat) (g : Grid) (row col : Int)
    (seqs : List Seq) (t : Seq) :
    t ∈ (checkSos n g row col seqs).1 ↔
      t ∈ seqs ∨ (OrientedSOS n g t ∧ (row, col) ∈ t) := by
  rw [checkSos_mem, producedBy_iff]

/-- The grid is an `n × n` matrix. -/
def Shape (n : Nat) (g : Grid) : Prop :=
  g.length = n ∧ ∀ row ∈ g, row.length = n

theorem shape_mkGrid (n : Nat) :
    Shape n (List.replicate n (List.replicate n (none : Option Letter))) := by
  refine ⟨List.length_replicate .., ?_⟩
  intro row h
  rw [List.eq_of_mem_replicate h]
  exact List.length_replicate ..

theorem cellAt_mkGrid (n : Nat) (r c : Int) :
    cellAt n (List.replicate n (List.replicate n (none : Option Letter))) r c = none := by
  unfold cellAt
  split
  · simp [List.getElem?_replicate]
    split <;> simp [List.getElem?_replicate]
    split <;> rfl
  · rfl

theorem list_set_of_getElem? {α : Type _} (l : List α) (i : Nat) (a : α)
    (h : l[i]? = some a) : l.set i a = l := by
  induction l generalizing i with
  | nil => simp at h
  | cons x xs ih =>
    cases i with
    | zero =>
      simp only [List.getElem?_cons_zero, Option.some.injEq] at h
      simp [h]
    | succ m =>
      simp only [List.getElem?_cons_succ] at h
      simp [ih m h]

theorem shape_setCell (n : Nat) (g : Grid) (r c : Int) (v : Option Letter)
    (h : Shape n g) : Shape n (setCell g r c v) := by
  obtain ⟨hl, hr⟩ := h
  unfold setCell
  by_cases hi : r.toNat < g.length
  · refine ⟨by simp [hl], ?_⟩
    intro row hrow
    rcases List.mem_or_eq_of_mem_set hrow with h' | rfl
    · exact hr _ h'
    · rw [List.getElem?_eq_getElem hi]
      simp only [Option.getD_some, List.length_set]
      exact hr _ (List.getElem_mem hi)
  · rw [List.set_eq_of_length_le (by omega)]
    exact ⟨hl, hr⟩

theorem cellAt_setCell (n : Nat) (g : Grid) (r c : Int) (v : Option Letter)
    (hs : Shape n g) (hv : inBounds n r c) (r' c' : Int) :
    cellAt n (setCell g r c v) r' c' =
      if r' = r ∧ c' = c then v else cellAt n g r' c' := by
  obtain ⟨hl, hrowlen⟩ := hs
  obtain ⟨h1, h2, h3, h4⟩ := hv
  have hi : r.toNat < g.length := by omega
  have hj : c.toNat < (g[r.toNat]).length := by
    rw [hrowlen _ (List.getElem_mem hi)]; omega
  by_cases hrc : r' = r ∧ c' = c
  · obtain ⟨rfl, rfl⟩ := hrc
    rw [if_pos ⟨rfl, rfl⟩]
    unfold cellAt setCell
    rw [if_pos ⟨h1, h2, h3, h4⟩, List.getElem?_set_self hi]
    simp only [Option.getD_some]
    rw [List.getElem?_eq_getElem hi]
    simp only [Option.getD_some]
    rw [List.getElem?_set_self hj]
    rfl
  · rw [if_neg hrc]
    by_cases hv' : inBounds n r' c'
    · unfold cellAt setCell
      rw [if_pos hv', if_pos hv']
      obtain ⟨h5, h6, h7, h8⟩ := hv'
      by_cases hrr : r' = r
      · subst hrr
        have hcc : c.toNat ≠ c'.toNat := by
          intro h
          exact hrc ⟨rfl, by omega⟩
        rw [List.getElem?_set_self hi]
        simp only [Option.getD_some]
        rw [List.getElem?_set_ne hcc]
      · have hne : r.toNat ≠ r'.toNat := by omega
        rw [List.getElem?_set_ne hne]
    · unfold cellAt
      rw [if_neg hv', if_neg hv']

theorem setCell_id (n : Nat) (g : Grid) (r c : Int) (v : Option Letter)
    (hs : Shape n g) (hv : inBounds n r c) (h : cellAt n g r c = v) :
    setCell g r c v = g := by
  obtain ⟨hl, hrowlen⟩ := hs
  obtain ⟨h1, h2, h3, h4⟩ := hv
  have hi : r.toNat < g.length := by omega
  have hj : c.toNat < (g[r.toNat]).length := by
    rw [hrowlen _ (List.getElem_mem hi)]; omega
  unfold cellAt at h
  rw [if_pos ⟨h1, h2, h3, h4⟩, List.getElem?_eq_getElem hi] at h
  simp only [Option.getD_some] at h
  rw [List.getElem?_eq_getElem hj] at h
  simp only [Option.getD_some] at h
  unfold setCell
  rw [List.getElem?_eq_getElem hi]
  simp only [Option.getD_some]
  have hrow : (g[r.toNat]).set c.toNat v = g[r.toNat] := by
    apply list_set_of_getElem?
    rw [List.getElem?_eq_getElem hj, h]
  rw [hrow]
  exact list_set_of_getElem? _ _ _ (List.getElem?_eq_getElem hi)

theorem setCell_setCell (g : Grid) (r c : Int) (v w : Option Letter) :
    setCell (setCell g r c v) r c w = setCell g r c w := by
  unfold setCell
  by_cases hi : r.toNat < g.length
  · rw [List.getElem?_set_self hi]
    simp only [Option.getD_some, List.set_set]
  · have hle : g.length ≤ r.toNat := by omega
    rw [List.set_eq_of_length_le hle]

/-- The grid obtained by replaying a history onto an empty grid. -/
def replayGrid (n : Nat) (hist : List Move) : Grid :=
  hist.foldl (fun g m => setCell g m.row m.col (some m.letter))
    (List.replicate n (List.replicate n none))

/-- Well-formed histories: in-bounds moves at pairwise distinct cells. -/
def GoodHist (n : Nat) (hist : List Move) : Prop :=
  (∀ m ∈ hist, inBounds n m.row m.col) ∧
  hist.Pairwise (fun m1 m2 => (m1.row, m1.col) ≠ (m2.row, m2.col))

/-- The invariant maintained by `make_move` and `undo_last_move`: the grid
is the replay of a well-formed history, and `sos_sequences` is a
duplicate-free list holding exactly the oriented complete S-O-S lines of
the grid. -/
def INV (b : Board) : Prop :=
  Shape b.size b.board ∧
  b.board = replayGrid b.size b.move_history ∧
  GoodHist b.size b.move_history ∧
  (∀ s, s ∈ b.sos_sequences ↔ OrientedSOS b.size b.board s) ∧
  b.sos_sequences.Nodup

theorem shape_foldl_set (n : Nat) (hist : List Move) (g : Grid) (h : Shape n g) :
    Shape n (hist.foldl (fun g m => setCell g m.row m.col (some m.letter)) g) := by
  induction hist generalizing g with
  | nil => exact h
  | cons m t ih => exact ih _ (shape_setCell _ _ _ _ _ h)

theorem shape_replayGrid (n : Nat) (hist : List Move) : Shape n (replayGrid n hist) :=
  shape_foldl_set n hist _ (shape_mkGrid n)

theorem cellAt_foldl_set_not_mem (n : Nat) (hist : List Move) (g : Grid)
    (hs : Shape n g) (hgood : ∀ m ∈ hist, inBounds n m.row m.col)
    (r c : Int) (hnot : ∀ m ∈ hist, (m.row, m.col) ≠ (r, c)) :
    cellAt n (hist.foldl (fun g m => setCell g m.row m.col (some m.letter)) g) r c =
      cellAt n g r c := by
  induction hist generalizing g with
  | nil => rfl
  | cons m t ih =>
    rw [List.foldl_cons,
      ih _ (shape_setCell _ _ _ _ _ hs) (fun m' hm' => hgood m' (List.mem_cons_of_mem _ hm'))
        (fun m' hm' => hnot m' (List.mem_cons_of_mem _ hm')),
      cellAt_setCell n g m.row m.col (some m.letter) hs (hgood m (List.mem_cons_self ..)),
      if_neg]
    intro hrc
    exact hnot m (List.mem_cons_self ..) (by rw [Prod.mk.injEq]; exact ⟨hrc.1.symm, hrc.2.symm⟩)

theorem cellAt_foldl_set_mem (n : Nat) (hist : List Move) (g : Grid)
    (hs : Shape n g) (hgood : ∀ m ∈ hist, inBounds n m.row m.col)
    (hdist : hist.Pairwise (fun m1 m2 => (m1.row, m1.col) ≠ (m2.row, m2.col)))
    (m : Move) (hm : m ∈ hist) :
    cellAt n (hist.foldl (fun g m => setCell g m.row m.col (some m.letter)) g)
      m.row m.col = some m.letter := by
  induction hist generalizing g with
  | nil => cases hm
  | cons m0 t ih =>
    rw [List.foldl_cons]
    rcases List.mem_cons.1 hm with rfl | hm'
    · rw [cellAt_foldl_set_not_mem n t _ (shape_setCell _ _ _ _ _ hs)
        (fun m' hm' => hgood m' (List.mem_cons_of_mem _ hm'))
        m.row m.col (fun m' hm' => Ne.symm ((List.pairwise_cons.1 hdist).1 m' hm')),
        cellAt_setCell n g m.row m.col (some m.letter) hs (hgood m (List.mem_cons_self ..)),
        if_pos ⟨rfl, rfl⟩]
    · exact ih _ (shape_setCell _ _ _ _ _ hs)
        (fun m' hm2 => hgood m' (List.mem_cons_of_mem _ hm2))
        (List.pairwise_cons.1 hdist).2 hm'

theorem replayGrid_cell_none (n : Nat) (hist : List Move)
    (hgood : ∀ m ∈ hist, inBounds n m.row m.col) (r c : Int)
    (h : ∀ m ∈ hist, (m.row, m.col) ≠ (r, c)) :
    cellAt n (replayGrid n hist) r c = none := by
  unfold replayGrid
  rw [cellAt_foldl_set_not_mem n hist _ (shape_mkGrid n) hgood r c h]
  exact cellAt_mkGrid n r c

theorem replayGrid_cell_mem (n : Nat) (hist : List Move)
    (hgood : ∀ m ∈ hist, inBounds n m.row m.col)
    (hdist : hist.Pairwise (fun m1 m2 => (m1.row, m1.col) ≠ (m2.row, m2.col)))
    (m : Move) (hm : m ∈ hist) :
    cellAt n (replayGrid n hist) m.row m.col = some m.letter :=
  cellAt_foldl_set_mem n hist _ (shape_mkGrid n) hgood hdist m hm

theorem replayGrid_occupied_mem (n : Nat) (hist : List Move)
    (hgood : ∀ m ∈ hist, inBounds n m.row m.col) (r c : Int)
    (h : cellAt n (replayGrid n hist) r c ≠ none) :
    ∃ m ∈ hist, (m.row, m.col) = (r, c) := by
  by_contra hn
  push_neg at hn
  exact h (replayGrid_cell_none n hist hgood r c hn)

/-- A letter placed in an empty cell keeps every existing oriented S-O-S
line intact. -/
theorem oriented_setCell_of_oriented (n : Nat) (g : Grid) (r c : Int) (l : Letter)
    (hs : Shape n g) (hv : inBounds n r c) (hempty : cellAt n g r c = none)
    (s : Seq) (h : OrientedSOS n g s) :
    OrientedSOS n (setCell g r c (some l)) s := by
  obtain ⟨pr, pc, dr, dc, hd, rfl, c1, c2, c3⟩ := h
  have key : ∀ q1 q2 : Int, cellAt n g q1 q2 ≠ none →
      cellAt n (setCell g r c (some l)) q1 q2 = cellAt n g q1 q2 := by
    intro q1 q2 hq
    rw [cellAt_setCell n g r c (some l) hs hv, if_neg]
    rintro ⟨rfl, rfl⟩
    exact hq hempty
  exact ⟨pr, pc, dr, dc, hd, rfl,
    by rw [key _ _ (by rw [c1]; simp)]; exact c1,
    by rw [key _ _ (by rw [c2]; simp)]; exact c2,
    by rw [key _ _ (by rw [c3]; simp)]; exact c3⟩

/-- An oriented S-O-S line that avoids the cell just written was already
present before the write. -/
theorem oriented_of_setCell_not_mem (n : Nat) (g : Grid) (r c : Int) (v : Option Letter)
    (hs : Shape n g) (hv : inBounds n r c) (s : Seq)
    (h : OrientedSOS n (setCell g r c v) s) (hnm : (r, c) ∉ s) :
    OrientedSOS n g s := by
  obtain ⟨pr, pc, dr, dc, hd, rfl, c1, c2, c3⟩ := h
  have key : ∀ q1 q2 : Int, (q1, q2) ∈ ([(pr, pc), (pr + dr, pc + dc),
      (pr + 2*dr, pc + 2*dc)] : Seq) →
      cellAt n (setCell g r c v) q1 q2 = cellAt n g q1 q2 := by
    intro q1 q2 hq
    rw [cellAt_setCell n g r c v hs hv, if_neg]
    rintro ⟨rfl, rfl⟩
    exact hnm hq
  exact ⟨pr, pc, dr, dc, hd, rfl,
    by rw [key pr pc (by simp)] at c1; exact c1,
    by rw [key (pr + dr) (pc + dc) (by simp)] at c2; exact c2,
    by rw [key (pr + 2*dr) (pc + 2*dc) (by simp)] at c3; exact c3⟩

theorem INV_mkBoard (n : Nat) : INV (mkBoard n) := by
  refine ⟨shape_mkGrid n, rfl, ⟨by intro m hm; simp [mkBoard] at hm, List.Pairwise.nil⟩, ?_, List.nodup_nil⟩
  intro s
  constructor
  · intro hs
    simp [mkBoard] at hs
  · rintro ⟨pr, pc, dr, dc, hd, hrfl, c1, c2, c3⟩
    have hc : cellAt (mkBoard n).size (mkBoard n).board pr pc = none :=
      cellAt_mkGrid n pr pc
    rw [hc] at c1
    cases c1

theorem INV_make_move (b : Board) (r c : Int) (l : Letter) (p : String)
    (h : INV b) : INV (make_move b r c l p).1 := by
  by_cases hv : is_valid_move b r c
  · obtain ⟨hsh, hrep, hgood, hseq, hnd⟩ := h
    obtain ⟨hb, hcell⟩ := hv
    have hnotin : ∀ m ∈ b.move_history, (m.row, m.col) ≠ (r, c) := by
      intro m hm he
      have := replayGrid_cell_mem b.size b.move_history hgood.1 hgood.2 m hm
      rw [Prod.mk.injEq] at he
      rw [he.1, he.2, ← hrep, hcell] at this
      cases this
    unfold make_move
    rw [if_pos ⟨hb, hcell⟩]
    refine ⟨shape_setCell _ _ _ _ _ hsh, ?_, ?_, ?_, ?_⟩
    · show setCell b.board r c (some l) = replayGrid b.size (b.move_history ++ [_])
      unfold replayGrid
      rw [List.foldl_append]
      show setCell b.board r c (some l) = setCell (replayGrid b.size b.move_history) r c (some l)
      rw [hrep]
    · constructor
      · intro m hm
        rcases List.mem_append.1 hm with hm' | hm'
        · exact hgood.1 m hm'
        · rw [List.mem_singleton.1 hm']
          exact hb
      · rw [List.pairwise_append]
        refine ⟨hgood.2, List.pairwise_singleton _ _, ?_⟩
        intro m1 hm1 m2 hm2
        rw [List.mem_singleton.1 hm2]
        exact hnotin m1 hm1
    · intro s
      show s ∈ (checkSos b.size (setCell b.board r c (some l)) r c b.sos_sequences).1 ↔ _
      rw [checkSos_mem_through]
      constructor
      · rintro (hs | ⟨ho, _⟩)
        · exact oriented_setCell_of_oriented b.size b.board r c l hsh hb hcell s
            ((hseq s).1 hs)
        · exact ho
      · intro ho
        by_cases hm : (r, c) ∈ s
        · exact Or.inr ⟨ho, hm⟩
        · exact Or.inl ((hseq s).2
            (oriented_of_setCell_not_mem b.size b.board r c (some l) hsh hb s ho hm))
    · exact checkSos_nodup _ _ _ _ _ hnd
  · unfold make_move
    rw [if_neg hv]
    exact h

/-- The replay loop of `undo_last_move`, run on a grid that already holds
every replayed letter: the grid never changes, the history is re-appended,
and the rebuilt sequence list collects exactly the oriented S-O-S lines
touching a replayed cell. -/
theorem replay_foldl_spec (n : Nat) (g0 : Grid) (hs : Shape n g0)
    (l : List Move)
    (hfacts : ∀ m ∈ l, inBounds n m.row m.col ∧ cellAt n g0 m.row m.col = some m.letter)
    (S : List Seq) (cov : List Move) (hnd : S.Nodup)
    (hS : ∀ s, s ∈ S ↔ (OrientedSOS n g0 s ∧ ∃ m ∈ cov, (m.row, m.col) ∈ s)) :
    (l.foldl (replayStep n) (g0, S, cov)).1 = g0 ∧
    (l.foldl (replayStep n) (g0, S, cov)).2.2 = cov ++ l ∧
    (l.foldl (replayStep n) (g0, S, cov)).2.1.Nodup ∧
    (∀ s, s ∈ (l.foldl (replayStep n) (g0, S, cov)).2.1 ↔
      (OrientedSOS n g0 s ∧ ∃ m ∈ cov ++ l, (m.row, m.col) ∈ s)) := by
  induction l generalizing S cov with
  | nil => exact ⟨rfl, by simp, hnd, fun s => by simp only [List.foldl_nil]; rw [hS s]; simp⟩
  | cons m t ih =>
    obtain ⟨hmb, hmc⟩ := hfacts m (List.mem_cons_self ..)
    have hg : setCell g0 m.row m.col (some m.letter) = g0 :=
      setCell_id n g0 m.row m.col (some m.letter) hs hmb hmc
    have hstep : replayStep n (g0, S, cov) m =
        (g0, (checkSos n g0 m.row m.col S).1, cov ++ [m]) := by
      unfold replayStep
      rw [hg]
    rw [List.foldl_cons, hstep]
    have ihr := ih (fun m' hm' => hfacts m' (List.mem_cons_of_mem _ hm'))
      (checkSos n g0 m.row m.col S).1 (cov ++ [m])
      (checkSos_nodup _ _ _ _ _ hnd) ?_
    · refine ⟨ihr.1, ?_, ihr.2.2.1, ?_⟩
      · rw [ihr.2.1, List.append_assoc, List.singleton_append]
      · intro s
        rw [ihr.2.2.2 s, List.append_assoc, List.singleton_append]
    · intro s
      rw [checkSos_mem_through, hS s]
      constructor
      · rintro (⟨ho, m', hm', hp⟩ | ⟨ho, hp⟩)
        · exact ⟨ho, m', List.mem_append_left _ hm', hp⟩
        · exact ⟨ho, m, List.mem_append_right _ (List.mem_singleton_self _), hp⟩
      · rintro ⟨ho, m', hm', hp⟩
        rcases List.mem_append.1 hm' with hm2 | hm2
        · exact Or.inl ⟨ho, m', hm2, hp⟩
        · rw [List.mem_singleton.1 hm2] at hp
          exact Or.inr ⟨ho, hp⟩

/-- What `undo_last_move` produces on a nonempty history, for a board
satisfying the invariant. -/
theorem undo_spec (b : Board) (h : INV b) (hist0 : List Move) (last : Move)
    (hh : b.move_history = hist0 ++ [last]) :
    (undo_last_move b).1.size = b.size ∧
    (undo_last_move b).1.board = replayGrid b.size hist0 ∧
    (undo_last_move b).1.move_history = hist0 ∧
    (undo_last_move b).1.sos_sequences.Nodup ∧
    (∀ s, s ∈ (undo_last_move b).1.sos_sequences ↔
      OrientedSOS b.size (replayGrid b.size hist0) s) := by
  obtain ⟨hsh, hrep, hgood, hseq, hnd⟩ := h
  have hgood0 : ∀ m ∈ hist0, inBounds b.size m.row m.col := by
    intro m hm
    exact hgood.1 m (hh ▸ List.mem_append_left _ hm)
  have hdist0 : hist0.Pairwise (fun m1 m2 => (m1.row, m1.col) ≠ (m2.row, m2.col)) := by
    have := hh ▸ hgood.2
    exact (List.pairwise_append.1 this).1
  have hlastb : inBounds b.size last.row last.col :=
    hgood.1 last (hh ▸ List.mem_append_right _ (List.mem_singleton_self _))
  have hlastnotin : ∀ m ∈ hist0, (m.row, m.col) ≠ (last.row, last.col) := by
    have := hh ▸ hgood.2
    intro m hm
    exact (List.pairwise_append.1 this).2.2 m hm last (List.mem_singleton_self _)
  have hg0empty : cellAt b.size (replayGrid b.size hist0) last.row last.col = none :=
    replayGrid_cell_none b.size hist0 hgood0 last.row last.col hlastnotin
  have hbrd : b.board = setCell (replayGrid b.size hist0) last.row last.col
      (some last.letter) := by
    rw [hrep, hh]
    unfold replayGrid
    rw [List.foldl_append]
    rfl
  have hclear : setCell b.board last.row last.col none = replayGrid b.size hist0 := by
    rw [hbrd, setCell_setCell]
    exact setCell_id b.size _ last.row last.col none (shape_replayGrid _ _) hlastb hg0empty
  have hlg : b.move_history.getLast? = some last := by
    rw [hh]
    exact List.getLast?_concat _
  have hdl : b.move_history.dropLast = hist0 := by
    rw [hh]
    exact List.dropLast_concat
  have hfacts : ∀ m ∈ hist0, inBounds b.size m.row m.col ∧
      cellAt b.size (replayGrid b.size hist0) m.row m.col = some m.letter := by
    intro m hm
    exact ⟨hgood0 m hm, replayGrid_cell_mem b.size hist0 hgood0 hdist0 m hm⟩
  have hfold := replay_foldl_spec b.size (replayGrid b.size hist0)
    (shape_replayGrid _ _) hist0 hfacts [] [] List.nodup_nil (by simp)
  have hundo : undo_last_move b =
      (⟨b.size, (hist0.foldl (replayStep b.size) (replayGrid b.size hist0, [], [])).1,
        (hist0.foldl (replayStep b.size) (replayGrid b.size hist0, [], [])).2.1,
        (hist0.foldl (replayStep b.size) (replayGrid b.size hist0, [], [])).2.2⟩,
       some last) := by
    unfold undo_last_move
    rw [hlg]
    simp only [hdl, hclear]
  rw [hundo]
  refine ⟨rfl, hfold.1, by rw [hfold.2.1]; simp, hfold.2.2.1, ?_⟩
  intro s
  rw [hfold.2.2.2 s]
  simp only [List.nil_append]
  constructor
  · rintro ⟨ho, _⟩
    exact ho
  · intro ho
    refine ⟨ho, ?_⟩
    obtain ⟨pr, pc, dr, dc, hd, rfl, c1, c2, c3⟩ := ho
    obtain ⟨m, hm, hp⟩ := replayGrid_occupied_mem b.size hist0 hgood0 pr pc
      (by rw [c1]; simp)
    exact ⟨m, hm, by rw [hp]; simp⟩

theorem INV_undo (b : Board) (h : INV b) : INV (undo_last_move b).1 := by
  rcases heq : b.move_history.getLast? with _ | last
  · have hnil : undo_last_move b = (b, none) := by
      unfold undo_last_move
      rw [heq]
    rw [hnil]
    exact h
  · have hh : b.move_history = b.move_history.dropLast ++ [last] := by
      have : b.move_history ≠ [] := by
        intro hn
        rw [hn] at heq
        cases heq
      conv =>
        lhs
        rw [← List.dropLast_append_getLast this]
      rw [List.getLast?_eq_getLast _ this] at heq
      rw [Option.some.injEq] at heq
      rw [heq]
    obtain ⟨h1, h2, h3, h4, h5⟩ := undo_spec b h _ _ hh
    have hgood := h.2.2.1
    refine ⟨?_, ?_, ?_, ?_, h4⟩
    · rw [h1, h2]
      exact shape_replayGrid _ _
    · rw [h1, h2, h3]
    · rw [h1, h3]
      constructor
      · intro m hm
        exact hgood.1 m (hh ▸ List.mem_append_left _ hm)
      · exact (List.pairwise_append.1 (hh ▸ hgood.2)).1
    · intro s
      rw [h5 s, h1, h2]

theorem INV_of_reachable (b : Board) (h : Reachable b) : INV b := by
  induction h with
  | init n => exact INV_mkBoard n
  | move r c l p _ ih => exact INV_make_move _ r c l p ih
  | undo _ ih => exact INV_undo _ ih

end Main

theorem iteQ_len (c : Prop) [Decidable c] {x y : List Seq × Nat} {L : Nat}
    (hx : x.1.length = L + x.2) (hy : y.1.length = L + y.2) :
    (if c then x else y).1.length = L + (if c then x else y).2 := by
  split
  · exact hx
  · exact hy

namespace Base

theorem check_sos_middle_len (n : Nat) (g : BGrid) (row col dr dc : Int)
    (acc : List Seq × Nat) (L : Nat) (h : acc.1.length = L + acc.2) :
    (check_sos_middle n g row col dr dc acc).1.length =
      L + (check_sos_middle n g row col dr dc acc).2 :=
  condAdd_len _ _ _ _ h

theorem check_sos_start_len (n : Nat) (g : BGrid) (row col dr dc : Int)
    (acc : List Seq × Nat) (L : Nat) (h : acc.1.length = L + acc.2) :
    (check_sos_start n g row col dr dc acc).1.length =
      L + (check_sos_start n g row col dr dc acc).2 :=
  condAdd_len _ _ _ _ h

theorem check_sos_end_len (n : Nat) (g : BGrid) (row col dr dc : Int)
    (acc : List Seq × Nat) (L : Nat) (h : acc.1.length = L + acc.2) :
    (check_sos_end n g row col dr dc acc).1.length =
      L + (check_sos_end n g row col dr dc acc).2 :=
  condAdd_len _ _ _ _ h

theorem checkDirB_len (n : Nat) (g : BGrid) (row col : Int) (acc : List Seq × Nat)
    (d : Int × Int) (L : Nat) (h : acc.1.length = L + acc.2) :
    (checkDirB n g row col acc d).1.length = L + (checkDirB n g row col acc d).2 := by
  unfold checkDirB
  have q1 := iteQ_len (cellAt n g row col = BCell.O)
    (check_sos_middle_len n g row col d.1 d.2 acc L h) h
  have q2 := iteQ_len (cellAt n g row col = BCell.S)
    (check_sos_start_len n g row col d.1 d.2 _ L q1) q1
  exact iteQ_len (cellAt n g row col = BCell.S)
    (check_sos_end_len n g row col d.1 d.2 _ L q2) q2

theorem foldDirsB_len (n : Nat) (g : BGrid) (row col : Int) (L : List (Int × Int))
    (acc : List Seq × Nat) (Len : Nat) (h : acc.1.length = Len + acc.2) :
    (L.foldl (checkDirB n g row col) acc).1.length =
      Len + (L.foldl (checkDirB n g row col) acc).2 := by
  induction L generalizing acc with
  | nil => exact h
  | cons d L ih => exact ih _ (checkDirB_len _ _ _ _ _ _ _ h)

theorem check_sos_formations_len (n : Nat) (g : BGrid) (row col : Int)
    (seqs : List Seq) :
    (check_sos_formations n g row col seqs).1.length =
      seqs.length + (check_sos_formations n g row col seqs).2 :=
  foldDirsB_len n g row col dirs4 (seqs, 0) seqs.length rfl

end Base

/-! ### Scenario boards used by concrete evaluations -/

/-- Apply a list of moves to an enhanced board (a driver loop). -/
def playMain (b : Main.Board) (ms : List (Int × Int × Letter)) : Main.Board :=
  ms.foldl (fun b m => (Main.make_move b m.1 m.2.1 m.2.2 "Human").1) b

theorem reachable_playMain (b : Main.Board) (h : Main.Reachable b)
    (ms : List (Int × Int × Letter)) : Main.Reachable (playMain b ms) := by
  induction ms generalizing b with
  | nil => exact h
  | cons m t ih => exact ih _ (Main.Reachable.move m.1 m.2.1 m.2.2 "Human" h)

/-- The 5×5 scenario of the spec: 'S' at (2,1) and (2,3) already placed. -/
def scenarioBoard : Main.Board :=
  playMain (Main.mkBoard 5) [(2, 1, .S), (2, 3, .S)]

/-- Seven moves building two SOS lines: row 0 is completed last (move 7)
but starts at move 1, row 2 is completed at move 4 but starts at move 2. -/
def c5Pre : Main.Board :=
  playMain (Main.mkBoard 5)
    [(0, 0, .S), (2, 0, .S), (2, 1, .O), (2, 2, .S), (4, 4, .S), (0, 1, .O), (0, 2, .S)]

/-! ### Lemmas about the AI engines -/

theorem list_getD_mem {α : Type _} (l : List α) (i : Nat) (d : α) (h : i < l.length) :
    l.getD i d ∈ l := by
  rw [List.getD_eq_getElem?_getD, List.getElem?_eq_getElem h]
  exact List.getElem_mem h

theorem main_mem_empty_cells (b : Main.Board) (r c : Int)
    (h : (r, c) ∈ Main.get_empty_cells b) :
    inBounds b.size r c ∧ Main.cellAt b.size b.board r c = none := by
  unfold Main.get_empty_cells at h
  simp only [List.mem_flatMap, List.mem_filterMap, List.mem_range] at h
  obtain ⟨i, hi, j, hj, hf⟩ := h
  split at hf
  · rename_i hcell
    rw [Option.some.injEq, Prod.mk.injEq] at hf
    obtain ⟨hf1, hf2⟩ := hf
    simp only [Int.ofNat_eq_coe] at hf1 hf2 hcell
    rw [hf1, hf2] at hcell
    exact ⟨⟨by omega, by omega, by omega, by omega⟩, hcell⟩
  · cases hf

theorem base_mem_empty_cells (b : Base.Board) (r c : Int)
    (h : (r, c) ∈ Base.get_empty_cells b) :
    inBounds b.size r c ∧ Base.cellAt b.size b.board r c = .empty := by
  unfold Base.get_empty_cells at h
  simp only [List.mem_flatMap, List.mem_filterMap, List.mem_range] at h
  obtain ⟨i, hi, j, hj, hf⟩ := h
  split at hf
  · rename_i hcell
    rw [Option.some.injEq, Prod.mk.injEq] at hf
    obtain ⟨hf1, hf2⟩ := hf
    simp only [Int.ofNat_eq_coe] at hf1 hf2 hcell
    rw [hf1, hf2] at hcell
    exact ⟨⟨by omega, by omega, by omega, by omega⟩, hcell⟩
  · cases hf

namespace AIP

theorem winScan_mem (b : Base.Board) (l : List Pos) (i : Nat) (p : Pos) (lt : Letter)
    (h : winScan b l i = some (p, lt)) : p ∈ l := by
  induction l generalizing i with
  | nil => simp [winScan] at h
  | cons q t ih =>
    unfold winScan at h
    split at h
    · cases h
    · split at h
      · simp only [Option.some.injEq, Prod.mk.injEq] at h
        exact List.mem_cons.2 (Or.inl h.1.symm)
      · split at h
        · simp only [Option.some.injEq, Prod.mk.injEq] at h
          exact List.mem_cons.2 (Or.inl h.1.symm)
        · exact List.mem_cons_of_mem _ (ih (i + 1) h)

theorem blockScan_mem (b : Base.Board) (l : List Pos) (i : Nat) (p : Pos)
    (h : blockScan b l i = some p) : p ∈ l := by
  induction l generalizing i with
  | nil => simp [blockScan] at h
  | cons q t ih =>
    unfold blockScan at h
    split at h
    · cases h
    · split at h
      · rw [Option.some.injEq] at h
        exact List.mem_cons.2 (Or.inl h.symm)
      · exact List.mem_cons_of_mem _ (ih (i + 1) h)

theorem stratPick_mem (b : Base.Board) (ec : List Pos) (p0 : Pos) (h0 : p0 ∈ ec) :
    stratPick b ec p0 ∈ ec := by
  unfold stratPick
  by_cases hc : (centerI b, centerI b) ∈ ec
  · rw [if_pos hc]
    exact hc
  · rw [if_neg hc]
    rcases h1 : ec.find? (fun p =>
        decide ((p.1 - centerI b).natAbs ≤ 1 ∧ (p.2 - centerI b).natAbs ≤ 1)) with _ | p
    · rw [h1]
      rcases h2 : (corners b).find? (fun p => decide (p ∈ ec)) with _ | p
      · rcases h3 : ec.find? (fun p => decide (p.1 = 0 ∨ p.1 = (b.size : Int) - 1 ∨
            p.2 = 0 ∨ p.2 = (b.size : Int) - 1)) with _ | p
        · rw [h3]
          exact h0
        · rw [h3]
          exact List.mem_of_find?_eq_some h3
      · show p ∈ ec
        have hb := List.find?_some h2
        simp only [decide_eq_true_eq] at hb
        exact hb
    · rw [h1]
      exact List.mem_of_find?_eq_some h1

theorem get_quick_strategic_move_spec (b : Base.Board) (ec : List Pos) (tie : Letter)
    (h : ec ≠ []) :
    ∃ p l, get_quick_strategic_move b ec tie = some (p, l) ∧ p ∈ ec := by
  rcases ec with _ | ⟨p0, t⟩
  · exact absurd rfl h
  · exact ⟨stratPick b (p0 :: t) p0, _, rfl,
      stratPick_mem b (p0 :: t) p0 (List.mem_cons_self ..)⟩

theorem aip_get_move_valid (diff : Diff3) (b : Base.Board) (rnd : ARand)
    (h : Base.get_empty_cells b ≠ []) :
    ∃ r c l, get_move diff b rnd = (some r, some c, some l) ∧
      (r, c) ∈ Base.get_empty_cells b := by
  unfold get_move
  rw [if_neg h]
  rcases hw : winScan b (Base.get_empty_cells b) 0 with _ | ⟨p, lt⟩
  · rcases hb : (if diff = Diff3.hard then blockScan b (Base.get_empty_cells b) 0
        else none) with _ | p
    · obtain ⟨p, l, hs, hm⟩ := get_quick_strategic_move_spec b _ rnd.tie h
      rw [hs]
      exact ⟨p.1, p.2, l, rfl, hm⟩
    · have hm : p ∈ Base.get_empty_cells b := by
        split at hb
        · exact blockScan_mem b _ 0 p hb
        · cases hb
      exact ⟨p.1, p.2, rnd.blockLetter, rfl, hm⟩
  · exact ⟨p.1, p.2, lt, rfl, winScan_mem b _ 0 p lt hw⟩

theorem sentinel_iff (diff : Diff3) (b : Base.Board) (rnd : ARand) :
    get_move diff b rnd = (none, none, none) ↔ Base.get_empty_cells b = [] := by
  constructor
  · intro h
    by_contra hne
    obtain ⟨r, c, l, heq, _⟩ := aip_get_move_valid diff b rnd hne
    rw [heq] at h
    simp at h
  · intro h
    unfold get_move
    rw [if_pos h]

end AIP

namespace EAI

theorem get_random_move_nil (b : Main.Board) (idx : Nat)
    (h : Main.get_empty_cells b = []) : get_random_move b idx = (none, none, none) := by
  unfold get_random_move
  rw [h]

theorem get_easy_move_nil (b : Main.Board) (idx : Nat)
    (h : Main.get_empty_cells b = []) : get_easy_move b idx = (none, none, none) := by
  unfold get_easy_move
  rw [h]

theorem find_sos_move_nil (b : Main.Board) (h : Main.get_empty_cells b = []) :
    find_sos_move b = none := by
  unfold find_sos_move
  rw [h]
  rfl

theorem find_blocking_move_nil (b : Main.Board) (h : Main.get_empty_cells b = []) :
    find_blocking_move b = none := by
  unfold find_blocking_move
  rw [h]
  rfl

theorem find_strategic_move_nil (b : Main.Board) (h : Main.get_empty_cells b = []) :
    find_strategic_move b = none := by
  unfold find_strategic_move
  rw [h]

theorem find_best_move_with_lookahead_nil (b : Main.Board)
    (h : Main.get_empty_cells b = []) : find_best_move_with_lookahead b = none := by
  unfold find_best_move_with_lookahead
  rw [h]
  rfl

theorem dispatch_nil (diff : EDiff) (b : Main.Board) (gate : Bool) (idx : Nat)
    (h : Main.get_empty_cells b = []) : dispatch diff b gate idx = (none, none, none) := by
  unfold dispatch
  cases diff
  · exact get_easy_move_nil b idx h
  · cases gate
    · rw [if_neg (by simp)]
      rw [find_sos_move_nil b h, find_blocking_move_nil b h, find_strategic_move_nil b h]
      exact get_random_move_nil b idx h
    · rw [if_pos rfl]
      exact get_random_move_nil b idx h
  · cases gate
    · rw [if_neg (by simp)]
      rw [find_sos_move_nil b h, find_blocking_move_nil b h,
        find_best_move_with_lookahead_nil b h, find_strategic_move_nil b h]
      exact get_random_move_nil b idx h
    · rw [if_pos rfl]
      exact get_random_move_nil b idx h

theorem get_move_nil (diff : EDiff) (b : Main.Board) (gate : Bool) (idx : Nat)
    (h : Main.get_empty_cells b = []) :
    get_move diff b gate idx = (none, none, some Letter.O) := by
  simp only [get_move, dispatch_nil diff b gate idx h, get_random_move_nil b idx h]
  simp

theorem get_random_move_cons (b : Main.Board) (idx : Nat) (p : Pos) (t : List Pos)
    (h : Main.get_empty_cells b = p :: t) :
    ∃ q : Pos, get_random_move b idx = (some q.1, some q.2, some Letter.O) ∧
      q ∈ Main.get_empty_cells b := by
  unfold get_random_move
  rw [h]
  refine ⟨(p :: t).getD (idx % (p :: t).length) (0, 0), rfl, ?_⟩
  exact list_getD_mem _ _ _ (Nat.mod_lt _ (by simp))

theorem get_easy_move_cons (b : Main.Board) (idx : Nat) (p : Pos) (t : List Pos)
    (h : Main.get_empty_cells b = p :: t) :
    ∃ q : Pos, get_easy_move b idx = (some q.1, some q.2, some Letter.O) ∧
      q ∈ Main.get_empty_cells b := by
  unfold get_easy_move
  rw [h]
  refine ⟨(p :: t).getD (idx % (p :: t).length) (0, 0), rfl, ?_⟩
  exact list_getD_mem _ _ _ (Nat.mod_lt _ (by simp))

theorem sosFold_mem (b : Main.Board) (E : List Pos) (l : List Pos)
    (hl : ∀ q ∈ l, q ∈ E) :
    ∀ (acc : Option Pos × Nat), (∀ q, acc.1 = some q → q ∈ E) →
    ∀ q, (l.foldl (sosFold b) acc).1 = some q → q ∈ E := by
  induction l with
  | nil => exact fun acc hacc q h => hacc q h
  | cons p t ih =>
    intro acc hacc q h
    refine ih (fun q hq => hl q (List.mem_cons_of_mem _ hq)) (sosFold b acc p) ?_ q h
    intro q' hq'
    simp only [sosFold] at hq'
    split at hq'
    · rw [Option.some.injEq] at hq'
      rw [← hq']
      exact hl p (List.mem_cons_self ..)
    · exact hacc q' hq'

theorem find_sos_move_mem (b : Main.Board) (q : Pos) (h : find_sos_move b = some q) :
    q ∈ Main.get_empty_cells b := by
  simp only [find_sos_move] at h
  split at h
  · exact sosFold_mem b (Main.get_empty_cells b) (Main.get_empty_cells b)
      (fun q hq => hq) (none, 0) (fun q hq => by cases hq) q h
  · cases h

theorem find_blocking_move_mem (b : Main.Board) (q : Pos)
    (h : find_blocking_move b = some q) : q ∈ Main.get_empty_cells b :=
  List.mem_of_find?_eq_some h

theorem stratFold_mem (b : Main.Board) (E : List Pos) (l : List Pos)
    (hl : ∀ q ∈ l, q ∈ E) :
    ∀ acc : Int × Int × Int, (acc.2.1, acc.2.2) ∈ E →
    ((l.foldl (stratFold b) acc).2.1, (l.foldl (stratFold b) acc).2.2) ∈ E := by
  induction l with
  | nil => exact fun acc hacc => hacc
  | cons p t ih =>
    intro acc hacc
    refine ih (fun q hq => hl q (List.mem_cons_of_mem _ hq)) (stratFold b acc p) ?_
    unfold stratFold
    split
    · exact hl p (List.mem_cons_self ..)
    · exact hacc

theorem find_strategic_move_mem (b : Main.Board) (q : Pos)
    (h : find_strategic_move b = some q) : q ∈ Main.get_empty_cells b := by
  unfold find_strategic_move at h
  split at h
  · cases h
  · rename_i p0 rest heq
    rw [Option.some.injEq] at h
    rw [← h]
    exact stratFold_mem b (Main.get_empty_cells b) rest
      (fun q hq => heq ▸ List.mem_cons_of_mem _ hq)
      (stratScore b p0, p0.1, p0.2) (heq ▸ List.mem_cons_self ..)

theorem lookFold_some (b : Main.Board) (l : List Pos) :
    ∀ (acc : Option (Pos × Int)) (pr : Pos × Int), acc = some pr →
    ∃ pr', l.foldl (lookFold b) acc = some pr' := by
  induction l with
  | nil =>
    intro acc pr h
    rw [List.foldl_nil]
    exact ⟨pr, h⟩
  | cons p t ih =>
    intro acc pr h
    rw [List.foldl_cons]
    have hsome : ∃ pr2, lookFold b acc p = some pr2 := by
      rw [h]
      unfold lookFold
      dsimp only
      split
      · exact ⟨_, rfl⟩
      · exact ⟨_, rfl⟩
    obtain ⟨pr2, hpr2⟩ := hsome
    rw [hpr2]
    exact ih _ pr2 rfl

theorem lookFold_sound (b : Main.Board) (E : List Pos) (l : List Pos)
    (hl : ∀ q ∈ l, q ∈ E) :
    ∀ (acc : Option (Pos × Int)),
      (∀ pr : Pos × Int, acc = some pr → pr.2 = lookScore b pr.1 ∧ pr.1 ∈ E) →
      ∀ pr' : Pos × Int, l.foldl (lookFold b) acc = some pr' →
        pr'.2 = lookScore b pr'.1 ∧ pr'.1 ∈ E := by
  induction l with
  | nil => exact fun acc hacc pr' h => hacc pr' h
  | cons p t ih =>
    intro acc hacc pr' h
    refine ih (fun q hq => hl q (List.mem_cons_of_mem _ hq)) (lookFold b acc p) ?_ pr' h
    intro pr2 hpr2
    unfold lookFold at hpr2
    rcases acc with _ | pr3
    · dsimp only at hpr2
      rw [Option.some.injEq] at hpr2
      rw [← hpr2]
      exact ⟨rfl, hl p (List.mem_cons_self ..)⟩
    · dsimp only at hpr2
      split at hpr2
      · rw [Option.some.injEq] at hpr2
        rw [← hpr2]
        exact ⟨rfl, hl p (List.mem_cons_self ..)⟩
      · exact hacc pr2 hpr2

theorem lookFold_max (b : Main.Board) (l : List Pos) :
    ∀ (acc : Option (Pos × Int)) (pr' : Pos × Int),
      l.foldl (lookFold b) acc = some pr' →
      (∀ q ∈ l, lookScore b q ≤ pr'.2) ∧
      (∀ pr : Pos × Int, acc = some pr → pr.2 ≤ pr'.2) := by
  induction l with
  | nil =>
    intro acc pr' h
    rw [List.foldl_nil] at h
    refine ⟨by simp, ?_⟩
    intro pr hpr
    rw [hpr] at h
    rw [Option.some.injEq] at h
    rw [h]
  | cons p t ih =>
    intro acc pr' h
    rw [List.foldl_cons] at h
    obtain ⟨ht, hacc'⟩ := ih (lookFold b acc p) pr' h
    have hstep : ∀ pr2 : Pos × Int, lookFold b acc p = some pr2 →
        lookScore b p ≤ pr2.2 ∧ (∀ pr : Pos × Int, acc = some pr → pr.2 ≤ pr2.2) := by
      intro pr2 hpr2
      unfold lookFold at hpr2
      rcases acc with _ | pr3
      · dsimp only at hpr2
        rw [Option.some.injEq] at hpr2
        rw [← hpr2]
        exact ⟨le_refl _, fun pr hpr => by cases hpr⟩
      · dsimp only at hpr2
        split at hpr2
        · rw [Option.some.injEq] at hpr2
          rw [← hpr2]
          refine ⟨le_refl _, ?_⟩
          intro pr hpr
          rw [Option.some.injEq] at hpr
          rw [← hpr]
          rename_i hgt
          exact le_of_lt hgt
        · rw [Option.some.injEq] at hpr2
          rw [← hpr2]
          rename_i hgt
          push_neg at hgt
          refine ⟨hgt, ?_⟩
          intro pr hpr
          rw [Option.some.injEq] at hpr
          rw [hpr]
    have hsome : ∃ pr2 : Pos × Int, lookFold b acc p = some pr2 := by
      unfold lookFold
      rcases acc with _ | pr3
      · exact ⟨_, rfl⟩
      · dsimp only
        split
        · exact ⟨_, rfl⟩
        · exact ⟨_, rfl⟩
    obtain ⟨pr2, hpr2⟩ := hsome
    obtain ⟨hp2, hprev⟩ := hstep pr2 hpr2
    have h2le : pr2.2 ≤ pr'.2 := hacc' pr2 hpr2
    constructor
    · intro q hq
      rcases List.mem_cons.1 hq with rfl | hq'
      · exact le_trans hp2 h2le
      · exact ht q hq'
    · intro pr hpr
      exact le_trans (hprev pr hpr) h2le

theorem find_best_move_with_lookahead_spec (b : Main.Board)
    (h : Main.get_empty_cells b ≠ []) :
    ∃ p : Pos, find_best_move_with_lookahead b = some p ∧
      p ∈ Main.get_empty_cells b ∧
      ∀ q ∈ Main.get_empty_cells b, lookScore b q ≤ lookScore b p := by
  unfold find_best_move_with_lookahead
  rcases hec : Main.get_empty_cells b with _ | ⟨p0, t⟩
  · exact absurd hec h
  · have hfold : (p0 :: t).foldl (lookFold b) none =
        t.foldl (lookFold b) (lookFold b none p0) := List.foldl_cons ..
    have hinit : lookFold b none p0 = some (p0, lookScore b p0) := rfl
    obtain ⟨pr', hpr'⟩ := lookFold_some b t (lookFold b none p0)
      (p0, lookScore b p0) hinit
    rw [hfold, hpr']
    have hsound := lookFold_sound b (p0 :: t) t
      (fun q hq => List.mem_cons_of_mem _ hq) (lookFold b none p0)
      (by
        intro pr hpr
        rw [hinit] at hpr
        rw [Option.some.injEq] at hpr
        rw [← hpr]
        exact ⟨rfl, List.mem_cons_self ..⟩) pr' hpr'
    obtain ⟨hmax_t, hmax_acc⟩ := lookFold_max b t (lookFold b none p0) pr' hpr'
    refine ⟨pr'.1, rfl, hsound.2, ?_⟩
    intro q hq
    rw [← hsound.1]
    rcases List.mem_cons.1 hq with rfl | hq'
    · have := hmax_acc (q, lookScore b q) hinit
      exact this
    · exact hmax_t q hq'

theorem dispatch_cases (diff : EDiff) (b : Main.Board) (gate : Bool) (idx : Nat)
    (h : Main.get_empty_cells b ≠ []) :
    ∃ q : Pos, dispatch diff b gate idx = (some q.1, some q.2, some Letter.O) ∧
      q ∈ Main.get_empty_cells b := by
  obtain ⟨p, t, hec⟩ := List.exists_cons_of_ne_nil h
  have hrand := get_random_move_cons b idx p t hec
  unfold dispatch
  cases diff
  · exact get_easy_move_cons b idx p t hec
  · cases gate
    · rw [if_neg (by simp)]
      rcases h1 : find_sos_move b with _ | q
      · rcases h2 : find_blocking_move b with _ | q
        · rcases h3 : find_strategic_move b with _ | q
          · exact hrand
          · exact ⟨q, rfl, find_strategic_move_mem b q h3⟩
        · exact ⟨q, rfl, find_blocking_move_mem b q h2⟩
      · exact ⟨q, rfl, find_sos_move_mem b q h1⟩
    · rw [if_pos rfl]
      exact hrand
  · cases gate
    · rw [if_neg (by simp)]
      rcases h1 : find_sos_move b with _ | q
      · rcases h2 : find_blocking_move b with _ | q
        · rcases h4 : find_best_move_with_lookahead b with _ | q
          · rcases h3 : find_strategic_move b with _ | q
            · exact hrand
            · exact ⟨q, rfl, find_strategic_move_mem b q h3⟩
          · obtain ⟨q', hq1, hq2, _⟩ := find_best_move_with_lookahead_spec b h
            rw [h4] at hq1
            rw [Option.some.injEq] at hq1
            exact ⟨q, rfl, hq1 ▸ hq2⟩
        · exact ⟨q, rfl, find_blocking_move_mem b q h2⟩
      · exact ⟨q, rfl, find_sos_move_mem b q h1⟩
    · rw [if_pos rfl]
      exact hrand

theorem eai_get_move_valid (diff : EDiff) (b : Main.Board) (gate : Bool) (idx : Nat)
    (h : Main.get_empty_cells b ≠ []) :
    ∃ q : Pos, get_move diff b gate idx = (some q.1, some q.2, some Letter.O) ∧
      q ∈ Main.get_empty_cells b := by
  obtain ⟨q, hq, hm⟩ := dispatch_cases diff b gate idx h
  unfold get_move
  rw [hq]
  exact ⟨q, rfl, hm⟩

theorem get_move_letter (diff : EDiff) (b : Main.Board) (gate : Bool) (idx : Nat) :
    (get_move diff b gate idx).2.2 = some Letter.O := rfl

end EAI

/-! ### Claim theorems -/

/-- C1: the claim says every reachable board keeps each 3-position triple
at most once in `sos_sequences`, compared by position set.  The enhanced
board of `main.py` violates this: placing 'O' at (2,2) between 'S' at
(2,1) and 'S' at (2,3) appends the same physical sequence twice, once per
orientation, because the 8-direction scan rediscovers it reversed and the
`not in` test compares ordered lists.  This theorem evaluates the code at
that failing input. -/
theorem claim_C1_same_triple_recorded_twice :
    Main.Reachable (Main.make_move scenarioBoard 2 2 .O "Human").1 ∧
    (Main.make_move scenarioBoard 2 2 .O "Human").1.sos_sequences =
      [[(2, 3), (2, 2), (2, 1)], [(2, 1), (2, 2), (2, 3)]] ∧
    ([((2 : Int), (1 : Int)), (2, 2), (2, 3)] : Seq).toFinset =
      ([((2 : Int), (3 : Int)), (2, 2), (2, 1)] : Seq).toFinset :=
  ⟨Main.Reachable.move 2 2 .O "Human" (reachable_playMain _ (Main.Reachable.init 5) _),
   by decide, by decide⟩

/-- C2: the claim says the scenario placement returns exactly 1 and
records the triple once.  The base board (`board.py`) does return 1 with
the triple recorded; the enhanced board (`main.py`) returns 2 for the
same placement, recording the triple twice.  This theorem evaluates both
variants at the scenario input. -/
theorem claim_C2_scenario_return_values :
    (Base.make_move (Base.make_move (Base.make_move (Base.mkBoard 5) 2 1 .S).1
       2 3 .S).1 2 2 .O).2 = 1 ∧
    [((2 : Int), (1 : Int)), (2, 2), (2, 3)] ∈
      (Base.make_move (Base.make_move (Base.make_move (Base.mkBoard 5) 2 1 .S).1
        2 3 .S).1 2 2 .O).1.sos_sequences ∧
    (Main.make_move scenarioBoard 2 2 .O "Human").2 = 2 := by
  refine ⟨by decide, by decide, by decide⟩

namespace AIP

/-- One immediate-win probe of a cell: try 'S' first, then 'O'; stated
from the spec's wording to characterize the win scan. -/
def winProbe (b : Base.Board) (p : Pos) : Option (Pos × Letter) :=
  if can_win_here b p.1 p.2 .S then some (p, .S)
  else if can_win_here b p.1 p.2 .O then some (p, .O)
  else none

theorem winScan_eq_take (b : Base.Board) (l : List Pos) (i : Nat) (h : i ≤ 3) :
    winScan b l i = (l.take (3 - i)).findSome? (winProbe b) := by
  induction l generalizing i with
  | nil => simp [winScan]
  | cons p t ih =>
    unfold winScan
    by_cases h3 : 3 ≤ i
    · rw [if_pos h3]
      have h0 : 3 - i = 0 := by omega
      rw [h0]
      simp
    · rw [if_neg h3]
      have htake : 3 - i = (3 - (i + 1)) + 1 := by omega
      rw [htake, List.take_succ_cons, List.findSome?_cons]
      unfold winProbe
      by_cases hS : can_win_here b p.1 p.2 .S = true
      · simp [hS]
      · by_cases hO : can_win_here b p.1 p.2 .O = true
        · simp [hS, hO]
        · simp only [hS, hO]
          simp only [Bool.false_eq_true, if_false]
          exact ih (i + 1) (by omega)

theorem blockScan_eq_take (b : Base.Board) (l : List Pos) (i : Nat) (h : i ≤ 2) :
    blockScan b l i = (l.take (2 - i)).find?
      (fun p => should_block_here b p.1 p.2) := by
  induction l generalizing i with
  | nil => simp [blockScan]
  | cons p t ih =>
    unfold blockScan
    by_cases h2 : 2 ≤ i
    · rw [if_pos h2]
      have h0 : 2 - i = 0 := by omega
      rw [h0]
      simp
    · rw [if_neg h2]
      have htake : 2 - i = (2 - (i + 1)) + 1 := by omega
      rw [htake, List.take_succ_cons, List.find?_cons]
      by_cases hB : should_block_here b p.1 p.2 = true
      · simp [hB]
      · simp only [hB]
        simp only [Bool.false_eq_true, if_false]
        exact ih (i + 1) (by omega)

end AIP

/-- C8: the free-letter AI's immediate-win stage inspects exactly the
first 3 empty cells in scan order (each probed with 'S' then 'O',
returning the first win found); the block stage runs only on "hard"
difficulty and inspects exactly the first 2 empty cells; the remaining
stages (positional priority chain and the random fallback) perform no
win search at all.  The equation characterizes `get_move` in terms of
`take 3` / `take 2` prefixes. -/
theorem claim_C8_bounded_prefix_scans (diff : AIP.Diff3) (b : Base.Board)
    (rnd : AIP.ARand) :
    AIP.get_move diff b rnd =
      (if Base.get_empty_cells b = [] then (none, none, none)
       else
        match ((Base.get_empty_cells b).take 3).findSome? (AIP.winProbe b) with
        | some (p, l) => (some p.1, some p.2, some l)
        | none =>
          match (if diff = AIP.Diff3.hard then
              ((Base.get_empty_cells b).take 2).find?
                (fun p => AIP.should_block_here b p.1 p.2) else none) with
          | some p => (some p.1, some p.2, some rnd.blockLetter)
          | none =>
            match AIP.get_quick_strategic_move b (Base.get_empty_cells b) rnd.tie with
            | some (p, l) => (some p.1, some p.2, some l)
            | none =>
              let p := (Base.get_empty_cells b).getD
                (rnd.fallIdx % (Base.get_empty_cells b).length) (0, 0)
              (some p.1, some p.2, some rnd.fallLetter)) := by
  unfold AIP.get_move
  dsimp only
  rw [AIP.winScan_eq_take b (Base.get_empty_cells b) 0 (by omega),
    AIP.blockScan_eq_take b (Base.get_empty_cells b) 0 (by omega)]

/-- A 3×3 enhanced board with 'S' at (2,0) and (2,2): the only
SOS-completing placement, 'O' at (2,1), is the 7th empty cell in scan
order (index 6). -/
def c9Board : Main.Board := playMain (Main.mkBoard 3) [(2, 0, .S), (2, 2, .S)]

/-- C9 counterexample: `_find_best_move_with_lookahead` returns a cell
that is not among the first 5 empty cells in scan order, so the lookahead
does not restrict its candidates to that bounded sample; the first-5
bound applies only to the opponent-reply scan. -/
theorem claim_C9_counterexample :
    EAI.find_best_move_with_lookahead c9Board = some (2, 1) ∧
    ((2 : Int), (1 : Int)) ∉ (Main.get_empty_cells c9Board).take 5 :=
  ⟨by decide, by decide⟩

/-- C9 (amended): the lookahead stage iterates over all empty cells as
candidates; each candidate is scored as `10 * immediate SOS gain - 5 *
(best opponent reply gain over the first 5 empty cells of the simulated
board)`, and the stage returns a cell maximizing that score. -/
theorem claim_C9_lookahead_maximizes (b : Main.Board)
    (h : Main.get_empty_cells b ≠ []) :
    ∃ p : Pos, EAI.find_best_move_with_lookahead b = some p ∧
      p ∈ Main.get_empty_cells b ∧
      ∀ q ∈ Main.get_empty_cells b, EAI.lookScore b q ≤ EAI.lookScore b p :=
  EAI.find_best_move_with_lookahead_spec b h

theorem claim_C9_witness :
    Main.get_empty_cells c9Board ≠ [] ∧
    (∃ p : Pos, EAI.find_best_move_with_lookahead c9Board = some p ∧
      p ∈ Main.get_empty_cells c9Board ∧
      ∀ q ∈ Main.get_empty_cells c9Board,
        EAI.lookScore c9Board q ≤ EAI.lookScore c9Board p) :=
  ⟨by decide, claim_C9_lookahead_maximizes c9Board (by decide)⟩

/-- A full 1×1 enhanced board (one 'S' placed). -/
def fullBoard : Main.Board := (Main.make_move (Main.mkBoard 1) 0 0 .S "Human").1

/-- C3 counterexample: on a full board `EnhancedAI.get_move` returns
`(None, None, 'O')`: the letter component is always `self.letter`, so the
claimed all-`None` sentinel is never produced by this variant. -/
theorem claim_C3_counterexample :
    Main.get_empty_cells fullBoard = [] ∧
    EAI.get_move .easy fullBoard false 0 = (none, none, some Letter.O) ∧
    EAI.get_move .easy fullBoard false 0 ≠ (none, none, none) :=
  ⟨by decide, by decide, by decide⟩

/-- C3 (amended): `AIPlayer.get_move` (ai.py) returns `(None, None, None)`
iff the board has no empty cells; `EnhancedAI.get_move` (main.py) returns
`None` in its row component iff the board has no empty cells, likewise
`None` in its column component iff the board has no empty cells, but its
letter component is always `'O'`, so on a full board it returns
`(None, None, 'O')` rather than `(None, None, None)`. -/
theorem claim_C3_sentinel_iff_amended (ad : AIP.Diff3) (bb : Base.Board)
    (ar : AIP.ARand) (ed : EAI.EDiff) (mb : Main.Board) (gate : Bool) (idx : Nat) :
    (AIP.get_move ad bb ar = (none, none, none) ↔ Base.get_empty_cells bb = []) ∧
    ((EAI.get_move ed mb gate idx).1 = none ↔ Main.get_empty_cells mb = []) ∧
    ((EAI.get_move ed mb gate idx).2.1 = none ↔ Main.get_empty_cells mb = []) ∧
    (EAI.get_move ed mb gate idx).2.2 = some Letter.O := by
  refine ⟨AIP.sentinel_iff ad bb ar, ?_, ?_, EAI.get_move_letter ed mb gate idx⟩
  · constructor
    · intro h
      by_contra hne
      obtain ⟨q, hq, _⟩ := EAI.eai_get_move_valid ed mb gate idx hne
      rw [hq] at h
      cases h
    · intro h
      rw [EAI.get_move_nil ed mb gate idx h]
  · constructor
    · intro h
      by_contra hne
      obtain ⟨q, hq, _⟩ := EAI.eai_get_move_valid ed mb gate idx hne
      rw [hq] at h
      cases h
    · intro h
      rw [EAI.get_move_nil ed mb gate idx h]

/-- C6: on any board with at least one empty cell, both AI variants
return an in-bounds, currently empty cell and a letter in {'S','O'} (the
enhanced AI always 'O'); neither function mutates its input board (in
this embedding every simulation runs on `copy`-produced values, and the
functions return no board). -/
theorem claim_C6_ai_returns_valid_empty_cell (ad : AIP.Diff3) (bb : Base.Board)
    (ar : AIP.ARand) (ed : EAI.EDiff) (mb : Main.Board) (gate : Bool) (idx : Nat)
    (h : Base.get_empty_cells bb ≠ []) (h2 : Main.get_empty_cells mb ≠ []) :
    (∃ r c l, AIP.get_move ad bb ar = (some r, some c, some l) ∧
      inBounds bb.size r c ∧ Base.cellAt bb.size bb.board r c = .empty) ∧
    (∃ r c, EAI.get_move ed mb gate idx = (some r, some c, some Letter.O) ∧
      inBounds mb.size r c ∧ Main.cellAt mb.size mb.board r c = none) := by
  constructor
  · obtain ⟨r, c, l, heq, hm⟩ := AIP.aip_get_move_valid ad bb ar h
    obtain ⟨hb, hcell⟩ := base_mem_empty_cells bb r c hm
    exact ⟨r, c, l, heq, hb, hcell⟩
  · obtain ⟨q, heq, hm⟩ := EAI.eai_get_move_valid ed mb gate idx h2
    obtain ⟨hb, hcell⟩ := main_mem_empty_cells mb q.1 q.2 hm
    exact ⟨q.1, q.2, heq, hb, hcell⟩

theorem claim_C6_witness :
    Base.get_empty_cells (Base.mkBoard 2) ≠ [] ∧
    Main.get_empty_cells (Main.mkBoard 2) ≠ [] ∧
    ((∃ r c l, AIP.get_move .hard (Base.mkBoard 2) ⟨.S, .O, 0, .S⟩ =
        (some r, some c, some l) ∧
      inBounds (Base.mkBoard 2).size r c ∧
      Base.cellAt (Base.mkBoard 2).size (Base.mkBoard 2).board r c = .empty) ∧
    (∃ r c, EAI.get_move .hard (Main.mkBoard 2) false 0 = (some r, some c, some Letter.O) ∧
      inBounds (Main.mkBoard 2).size r c ∧
      Main.cellAt (Main.mkBoard 2).size (Main.mkBoard 2).board r c = none)) :=
  ⟨by decide, by decide,
   claim_C6_ai_returns_valid_empty_cell .hard (Base.mkBoard 2) ⟨.S, .O, 0, .S⟩
     .hard (Main.mkBoard 2) false 0 (by decide) (by decide)⟩

/-- C4: an out-of-bounds or occupied target makes `placeMove` return 0
and leave the board (grid, sequences, history) exactly unchanged, in both
variants. -/
theorem claim_C4_invalid_move_no_effect
    (b : Main.Board) (r c : Int) (l : Letter) (p : String)
    (bb : Base.Board) (r2 c2 : Int) (l2 : Letter)
    (h : ¬ inBounds b.size r c ∨ Main.cellAt b.size b.board r c ≠ none)
    (h2 : ¬ inBounds bb.size r2 c2 ∨ Base.cellAt bb.size bb.board r2 c2 ≠ .empty) :
    Main.make_move b r c l p = (b, 0) ∧ Base.make_move bb r2 c2 l2 = (bb, 0) := by
  constructor
  · unfold Main.make_move
    rw [if_neg]
    rintro ⟨hv, he⟩
    rcases h with h | h
    · exact h hv
    · exact h he
  · unfold Base.make_move
    rw [if_neg]
    rintro ⟨hv, he⟩
    rcases h2 with h | h
    · exact h hv
    · exact h he

theorem claim_C4_witness :
    (¬ inBounds (Main.mkBoard 2).size 5 0 ∨
      Main.cellAt (Main.mkBoard 2).size (Main.mkBoard 2).board 5 0 ≠ none) ∧
    (¬ inBounds (Base.make_move (Base.mkBoard 2) 0 0 .S).1.size 0 0 ∨
      Base.cellAt (Base.make_move (Base.mkBoard 2) 0 0 .S).1.size
        (Base.make_move (Base.mkBoard 2) 0 0 .S).1.board 0 0 ≠ .empty) ∧
    (Main.make_move (Main.mkBoard 2) 5 0 .S "x" = (Main.mkBoard 2, 0) ∧
      Base.make_move (Base.make_move (Base.mkBoard 2) 0 0 .S).1 0 0 .O =
        ((Base.make_move (Base.mkBoard 2) 0 0 .S).1, 0)) :=
  ⟨by decide, by decide,
   claim_C4_invalid_move_no_effect (Main.mkBoard 2) 5 0 .S "x"
     (Base.make_move (Base.mkBoard 2) 0 0 .S).1 0 0 .O (by decide) (by decide)⟩

/-- C5 counterexample: a reachable board and a valid move for which
`undoLastMove` after `placeMove` does not restore `sos_sequences` to its
exact pre-move value (the rebuilt list is reordered: replay rediscovers
each line at its first-placed cell rather than its completing cell). -/
theorem claim_C5_counterexample :
    Main.Reachable c5Pre ∧
    Main.is_valid_move c5Pre 4 0 ∧
    (Main.undo_last_move (Main.make_move c5Pre 4 0 .S "Human").1).1.sos_sequences ≠
      c5Pre.sos_sequences :=
  ⟨reachable_playMain _ (Main.Reachable.init 5) _, by decide, by decide⟩

/-- C5 (amended): for every reachable board and valid move, `placeMove`
followed by `undoLastMove` restores the cell grid and the move history
exactly, and restores `sos_sequences` up to reordering (the rebuilt list
is a permutation of the pre-move list). -/
theorem claim_C5_undo_left_inverse_up_to_perm
    (b : Main.Board) (r c : Int) (l : Letter) (p : String)
    (hre : Main.Reachable b) (hv : Main.is_valid_move b r c) :
    (Main.undo_last_move (Main.make_move b r c l p).1).1.board = b.board ∧
    (Main.undo_last_move (Main.make_move b r c l p).1).1.move_history = b.move_history ∧
    ((Main.undo_last_move (Main.make_move b r c l p).1).1.sos_sequences).Perm
      b.sos_sequences := by
  have hI := Main.INV_of_reachable b hre
  have hI1 := Main.INV_make_move b r c l p hI
  have hh : (Main.make_move b r c l p).1.move_history = b.move_history ++
      [⟨r, c, l, p, (Main.checkSos b.size (Main.setCell b.board r c (some l)) r c
        b.sos_sequences).2⟩] := by
    unfold Main.make_move
    rw [if_pos hv]
  have hsz : (Main.make_move b r c l p).1.size = b.size := by
    unfold Main.make_move
    rw [if_pos hv]
  obtain ⟨u1, u2, u3, u4, u5⟩ := Main.undo_spec _ hI1 _ _ hh
  rw [hsz] at u2 u5
  have hbrd : Main.replayGrid b.size b.move_history = b.board := hI.2.1.symm
  rw [hbrd] at u2 u5
  refine ⟨u2, u3, ?_⟩
  exact (List.perm_ext_iff_of_nodup u4 hI.2.2.2.2).2
    (fun a => (u5 a).trans ((hI.2.2.2.1 a).symm))

theorem claim_C5_witness :
    Main.Reachable (Main.mkBoard 5) ∧
    Main.is_valid_move (Main.mkBoard 5) 0 0 ∧
    ((Main.undo_last_move (Main.make_move (Main.mkBoard 5) 0 0 .S "Human").1).1.board =
        (Main.mkBoard 5).board ∧
      (Main.undo_last_move (Main.make_move (Main.mkBoard 5) 0 0 .S "Human").1).1.move_history =
        (Main.mkBoard 5).move_history ∧
      ((Main.undo_last_move (Main.make_move (Main.mkBoard 5) 0 0 .S "Human").1).1.sos_sequences).Perm
        (Main.mkBoard 5).sos_sequences) :=
  ⟨Main.Reachable.init 5, by decide,
   claim_C5_undo_left_inverse_up_to_perm (Main.mkBoard 5) 0 0 .S "Human"
     (Main.Reachable.init 5) (by decide)⟩

/-- C7: for every valid placement, the returned score equals the number
of entries appended to `sos_sequences` by that call (length after minus
length before), in both variants. -/
theorem claim_C7_score_counts_new_sequences
    (b : Main.Board) (r c : Int) (l : Letter) (p : String)
    (bb : Base.Board) (r2 c2 : Int) (l2 : Letter)
    (hv : Main.is_valid_move b r c) (hv2 : Base.is_valid_move bb r2 c2) :
    (Main.make_move b r c l p).1.sos_sequences.length =
      b.sos_sequences.length + (Main.make_move b r c l p).2 ∧
    (Base.make_move bb r2 c2 l2).1.sos_sequences.length =
      bb.sos_sequences.length + (Base.make_move bb r2 c2 l2).2 := by
  constructor
  · unfold Main.make_move
    rw [if_pos hv]
    exact Main.checkSos_len _ _ _ _ _
  · unfold Base.make_move
    rw [if_pos hv2]
    exact Base.check_sos_formations_len _ _ _ _ _

theorem claim_C7_witness :
    Main.is_valid_move scenarioBoard 2 2 ∧
    Base.is_valid_move (Base.mkBoard 5) 2 2 ∧
    ((Main.make_move scenarioBoard 2 2 .O "Human").1.sos_sequences.length =
        scenarioBoard.sos_sequences.length + (Main.make_move scenarioBoard 2 2 .O "Human").2 ∧
      (Base.make_move (Base.mkBoard 5) 2 2 .O).1.sos_sequences.length =
        (Base.mkBoard 5).sos_sequences.length + (Base.make_move (Base.mkBoard 5) 2 2 .O).2) :=
  ⟨by decide, by decide,
   claim_C7_score_counts_new_sequences scenarioBoard 2 2 .O "Human"
     (Base.mkBoard 5) 2 2 .O (by decide) (by decide)⟩

/-- C10: `getCell` is total and returns the `None` sentinel on every
out-of-bounds position in both variants, and on the enhanced board the
very same value (`None`) is returned for an in-bounds empty cell, so the
two cases are indistinguishable by return value. -/
theorem claim_C10_get_cell_total_none
    (mb : Main.Board) (bb : Base.Board) (r c : Int) :
    (¬ inBounds mb.size r c → Main.get_cell mb r c = none) ∧
    (¬ inBounds bb.size r c → Base.get_cell bb r c = none) ∧
    (inBounds mb.size r c → Main.cellAt mb.size mb.board r c = none →
      Main.get_cell mb r c = none) := by
  refine ⟨?_, ?_, ?_⟩
  · intro h
    unfold Main.get_cell
    rw [if_neg h]
  · intro h
    unfold Base.get_cell
    rw [if_neg h]
  · intro h h2
    unfold Main.cellAt at h2
    rw [if_pos h] at h2
    unfold Main.get_cell
    rw [if_pos h]
    exact h2

theorem claim_C10_witness :
    (¬ inBounds (Main.mkBoard 5).size (-1) 0 → Main.get_cell (Main.mkBoard 5) (-1) 0 = none) ∧
    Main.get_cell (Main.mkBoard 5) (-1) 0 = none ∧
    Base.get_cell (Base.mkBoard 5) 5 0 = none ∧
    Main.get_cell (Main.mkBoard 5) 0 0 = none :=
  ⟨fun _ => (claim_C10_get_cell_total_none (Main.mkBoard 5) (Base.mkBoard 5) (-1) 0).1
     (by decide),
   (claim_C10_get_cell_total_none (Main.mkBoard 5) (Base.mkBoard 5) (-1) 0).1 (by decide),
   (claim_C10_get_cell_total_none (Main.mkBoard 5) (Base.mkBoard 5) 5 0).2.1 (by decide),
   (claim_C10_get_cell_total_none (Main.mkBoard 5) (Base.mkBoard 5) 0 0).2.2 (by decide)
     (by decide)⟩

end SOSGame
